import Mathlib

/-!
# Verification of the VMTranslator code generator

A shallow embedding of the repository's code generator (`CodeWriter.py`,
driven by `VMTranslator.py`).  The Python `CodeWriter` object is modelled
as an explicit state record `CW`; every method that mutates the object or
writes to the output file becomes a state-passing function.  The output
`.asm` file is modelled as the list of emitted lines (`output`), appended
to by `CW.write` exactly as the Python `write` method writes
newline-joined lines.  Python exceptions become `Except VMError`.

A small operational model of the target (Hack) machine is defined further
down so that the emitted instruction sequences can be executed and their
semantics proved, not just their syntax inspected.
-/

namespace VMT

/-- Error taxonomy of the translator, naming the spec's categories.
Every `raise Exception(msg)` site of the source is mapped to the
category the spec assigns to it; the message string is preserved. -/
inductive VMError where
  | invalidSegment (msg : String)
  | invalidOperand (msg : String)
  | unboundContext (msg : String)
  | invalidOperator (msg : String)
  | malformedInstruction (msg : String)
  deriving DecidableEq, Repr

/-- `SEGMENTS_MAPPER`: maps the four base-pointer segments to their
register names (module-level dict of `CodeWriter.py`). -/
def SEGMENTS_MAPPER : String → Option String
  | "argument" => some "ARG"
  | "local" => some "LCL"
  | "this" => some "THIS"
  | "that" => some "THAT"
  | _ => none

/-- `CodeWriter.get_ram_code`.  In the source a missing key raises
`KeyError`; every call site passes one of the four mapped segments, so
the fallback string is dead code kept only to make the function total. -/
def get_ram_code (segment : String) : String :=
  (SEGMENTS_MAPPER segment).getD "KEYERROR"

/-- Python `f"...{x}..."` rendering of a value that may be `None`
(the source passes `None` as the index for the "skip" pseudo-segment). -/
def pyShow : Option Nat → String
  | some n => Nat.repr n
  | none => "None"

/-- The mutable state of a `CodeWriter`, plus the output sink.
`output` is the ordered list of lines written so far; `closed` records
whether `close()` has been called on the sink. -/
structure CW where
  current_filename : Option String
  current_function : Option String
  arith_jump_counter : Nat
  return_counter : Nat
  log_vm_commands : Bool
  output : List String
  closed : Bool
  deriving Repr, DecidableEq

namespace CW

/-- `CodeWriter.write`: append the given asm lines to the output file. -/
def write (s : CW) (commands : List String) : CW :=
  { s with output := s.output ++ commands }

/-- `CodeWriter.close`: release the output sink. -/
def close (s : CW) : CW :=
  { s with closed := true }

/-- `in_function` property: whether a current function context is set. -/
def in_function (s : CW) : Bool :=
  s.current_function.isSome

/-- `os.path.basename` for POSIX paths: the part after the last slash. -/
def basename (p : String) : String :=
  (p.splitOn "/").getLastD ""

/-- `CodeWriter.set_filename`: sets the current input-unit name
(basename with the `.vm` extension removed) and resets the
current-function context to `None`. -/
def set_filename (s : CW) (filepath : String) : CW :=
  { s with
    current_filename := some ((basename filepath).replace ".vm" "")
    current_function := none }

/-- `CodeWriter.translate_segment_vm_code`: the address-resolution
sequence for `(segment, index)`.  Mirrors the Python dispatch exactly,
including the error sites. -/
def translate_segment_vm_code (s : CW) (segment : String) (index : Option Nat) :
    Except VMError (List String) :=
  if segment = "local" ∨ segment = "argument" ∨ segment = "this" ∨ segment = "that" then
    let ram_code := get_ram_code segment
    let seg_commands := ["@" ++ ram_code]
    let extend_commands :=
      if index = some 0 then
        ["A=M"]
      else
        ["D=M", "@" ++ pyShow index, "A=D+A"]
    .ok (seg_commands ++ extend_commands)
  else if segment = "static" then
    match s.current_filename with
    | none => .error (.unboundContext "")
    | some fname => .ok ["@" ++ fname ++ "." ++ pyShow index]
  else if segment = "pointer" then
    if index = some 0 then .ok ["@THIS"]
    else if index = some 1 then .ok ["@THAT"]
    else .error (.invalidOperand
      ("The 'pointer' segment cannot take index '" ++ pyShow index ++
        "'. Only accepts 0 or 1."))
  else if segment = "temp" then
    .ok ["@5", "D=A", "@" ++ pyShow index, "A=D+A"]
  else if segment = "constant" then
    .ok ["@" ++ pyShow index, "D=A"]
  else
    .error (.invalidSegment ("Unexpected segment command '" ++ segment ++ "' read."))

/-- `CodeWriter.translate_push_vm_code_to_asm`. -/
def translate_push_vm_code_to_asm (s : CW) (segment : String) (index : Option Nat) :
    Except VMError (List String) := do
  let mut_commands ←
    if segment ≠ "skip" then do
      let seg ← s.translate_segment_vm_code segment index
      if segment ≠ "constant" then
        pure (seg ++ ["D=M"])
      else
        pure seg
    else
      pure []
  .ok (mut_commands ++ ["@SP", "AM=M+1", "A=A-1", "M=D"])

/-- `CodeWriter.translate_pop_vm_code_to_asm`. -/
def translate_pop_vm_code_to_asm (s : CW) (segment : String) (index : Option Nat) :
    Except VMError (List String) := do
  if segment = "constant" then
    .error (.invalidSegment ("Can't call 'pop()' operation on a '" ++ segment ++ "' segment"))
  else
    let seg ← s.translate_segment_vm_code segment index
    .ok (seg ++ ["D=A", "@SP", "AM=M-1", "D=D+M", "A=D-M", "D=D-A", "M=D"])

/-- `CodeWriter.translate_arithmetic_vm_code_to_assembly`.  Returns the
asm lines together with the updated state (the comparison branch bumps
`arith_jump_counter`).  The Python `command is None` check cannot arise
here because `String` is never `None`. -/
def translate_arithmetic_vm_code_to_assembly (s : CW) (command : String) :
    Except VMError (List String × CW) := do
  let asm_head :=
    if ¬(command = "neg" ∨ command = "not") then
      ["@SP", "AM=M-1", "D=M", "@SP", "AM=M-1"]
    else
      ["@SP", "AM=M-1"]
  let (arith_commands, s') ←
    if command = "add" then .ok (["M=M+D"], s)
    else if command = "sub" then .ok (["M=M-D"], s)
    else if command = "neg" then .ok (["M=-M"], s)
    else if command = "eq" ∨ command = "gt" ∨ command = "lt" then
      let c := s.arith_jump_counter
      let jump := if command = "eq" then "D;JEQ" else if command = "gt" then "D;JGT" else "D;JLT"
      .ok (["D=M-D", "@TRUE_" ++ Nat.repr c, jump,
            "D=0", "@END_" ++ Nat.repr c, "0;JMP",
            "(TRUE_" ++ Nat.repr c ++ ")", "D=-1",
            "(END_" ++ Nat.repr c ++ ")",
            "@SP", "A=M", "M=D"],
           { s with arith_jump_counter := c + 1 })
    else if command = "and" then .ok (["M=D&M"], s)
    else if command = "or" then .ok (["M=D|M"], s)
    else if command = "not" then .ok (["M=!M"], s)
    else .error (.invalidOperator ("'" ++ command ++ "' is not a valid arithmetic command."))
  .ok (asm_head ++ arith_commands ++ ["@SP", "M=M+1"], s')

/-- `CodeWriter.write_arithmetic`. -/
def write_arithmetic (s : CW) (vm_command : String) : Except VMError CW := do
  let s := if s.log_vm_commands then s.write ["//  " ++ vm_command] else s
  let (asm_commands, s') ← s.translate_arithmetic_vm_code_to_assembly vm_command
  .ok (s'.write asm_commands)

/-- `CodeWriter.write_push_pop`. -/
def write_push_pop (s : CW) (command_type : String) (segment : String) (index : Nat) :
    Except VMError CW := do
  let s :=
    if s.log_vm_commands then
      let command := if command_type = "C_PUSH" then "push" else "pop"
      s.write ["//  " ++ command ++ " " ++ segment ++ " " ++ Nat.repr index]
    else s
  let asm_commands ←
    if command_type = "C_PUSH" then
      s.translate_push_vm_code_to_asm segment (some index)
    else if command_type = "C_POP" then
      s.translate_pop_vm_code_to_asm segment (some index)
    else
      .error (.malformedInstruction
        ("Command type '" ++ command_type ++ "' erroneously triggered a write_push_pop() method."))
  .ok (s.write asm_commands)

/-- `CodeWriter.write_label`. -/
def write_label (s : CW) (label : String) : CW :=
  let s := if s.log_vm_commands then s.write ["//  label " ++ label] else s
  let label :=
    match s.current_function with
    | some f => f ++ "." ++ label
    | none => label
  s.write ["(" ++ label ++ ")"]

/-- `CodeWriter.write_goto`. -/
def write_goto (s : CW) (label : String) : CW :=
  let s := if s.log_vm_commands then s.write ["//  goto " ++ label] else s
  let label :=
    match s.current_function with
    | some f => f ++ "." ++ label
    | none => label
  s.write ["@" ++ label, "0;JMP"]

/-- `CodeWriter.write_if`. -/
def write_if (s : CW) (label : String) : CW :=
  let s := if s.log_vm_commands then s.write ["//  if-goto " ++ label] else s
  let label :=
    match s.current_function with
    | some f => f ++ "." ++ label
    | none => label
  s.write ["@SP", "AM=M-1", "D=M", "@" ++ label, "D;JNE"]

/-- The per-local-variable initialisation block of `write_function`. -/
def function_local_block (i : Nat) : List String :=
  ["@" ++ get_ram_code "local", "D=M", "@" ++ Nat.repr i, "A=D+A", "M=0", "@SP", "M=M+1"]

/-- `CodeWriter.write_function`. -/
def write_function (s : CW) (function_name : String) (num_local_vars : Nat) : CW :=
  let s := { s with current_function := some function_name }
  let s :=
    if s.log_vm_commands then
      s.write ["//  function " ++ function_name ++ " " ++ Nat.repr num_local_vars]
    else s
  let asm_commands :=
    ["(" ++ function_name ++ ")"] ++
      (List.range num_local_vars).flatMap function_local_block
  s.write asm_commands

/-- `CodeWriter.write_call`.  The pushes reuse
`translate_push_vm_code_to_asm` with the "skip" pseudo-segment, which
never fails; `callPushTail` is that (always-`ok`) tail sequence. -/
def callPushTail : List String := ["@SP", "AM=M+1", "A=A-1", "M=D"]

def write_call (s : CW) (function_name : String) (num_vars : Nat) : CW :=
  let s :=
    if s.log_vm_commands then
      s.write ["//  call " ++ function_name ++ " " ++ Nat.repr num_vars]
    else s
  let return_address_label := "RETURN_" ++ Nat.repr s.return_counter
  let s := { s with return_counter := s.return_counter + 1 }
  let asm_commands :=
    ["@" ++ return_address_label, "D=A"] ++ callPushTail ++
    (["local", "argument", "this", "that"].flatMap fun mem =>
      ["@" ++ get_ram_code mem, "D=M"] ++ callPushTail) ++
    ["@SP", "D=M", "@" ++ Nat.repr (num_vars + 5), "D=D-A",
     "@" ++ get_ram_code "argument", "M=D",
     "@SP", "D=M", "@" ++ get_ram_code "local", "M=D",
     "@" ++ function_name, "0;JMP",
     "(" ++ return_address_label ++ ")"]
  s.write asm_commands

/-- The literal asm line list of `CodeWriter.write_return`. -/
def return_asm : List String :=
  ["@" ++ get_ram_code "local", "D=M", "@frame", "M=D",
   "@5", "A=D-A", "D=M", "@return", "M=D",
   "@SP", "AM=M-1", "D=M",
   "@" ++ get_ram_code "argument", "A=M", "M=D",
   "D=A+1", "@SP", "M=D",
   "@frame", "D=M", "@1", "A=D-A", "D=M", "@" ++ get_ram_code "that", "M=D",
   "@frame", "D=M", "@2", "A=D-A", "D=M", "@" ++ get_ram_code "this", "M=D",
   "@frame", "D=M", "@3", "A=D-A", "D=M", "@" ++ get_ram_code "argument", "M=D",
   "@frame", "D=M", "@4", "A=D-A", "D=M", "@" ++ get_ram_code "local", "M=D",
   "@return", "A=M", "0;JMP"]

/-- `CodeWriter.write_return`. -/
def write_return (s : CW) : CW :=
  let s := if s.log_vm_commands then s.write ["//  return"] else s
  s.write return_asm

/-- `CodeWriter.write_init`: bootstrap code, emitted only when the input
path is a directory.  The filesystem test `os.path.isdir` is an
environment input, passed in as `is_dir`. -/
def write_init (is_dir : Bool) (s : CW) : CW :=
  if ¬is_dir then s
  else
    let s := if s.log_vm_commands then s.write ["//  Boostrap code"] else s
    let s := s.write ["@256", "D=A", "@SP", "M=D"]
    s.write_call "Sys.init" 0

/-- `CodeWriter.__init__` (the generation-state part; output-path
naming is filesystem work outside the embedding): fresh state, then
`write_init`. -/
def init (is_dir : Bool) (log_vm_commands : Bool := true) : CW :=
  write_init is_dir
    { current_filename := none
      current_function := none
      arith_jump_counter := 0
      return_counter := 0
      log_vm_commands := log_vm_commands
      output := []
      closed := false }

end CW

/-- A validated VM instruction, as produced by the external Instruction
Model (`Command.py` / `Parser.py`): the command type together with the
arguments the driver loop (`Main.translate_file`) extracts for it. -/
inductive VMCmd where
  | arith (op : String)
  | push (segment : String) (index : Nat)
  | pop (segment : String) (index : Nat)
  | label (l : String)
  | goto (l : String)
  | ifgoto (l : String)
  | func (name : String) (nLocals : Nat)
  | call (name : String) (nArgs : Nat)
  | ret
  deriving DecidableEq, Repr

/-- One iteration of the `while parser.has_more_commands()` loop of
`Main.translate_file`: dispatch one instruction to the code writer. -/
def translate_cmd (s : CW) (c : VMCmd) : Except VMError CW :=
  match c with
  | .ret => .ok s.write_return
  | .arith op => s.write_arithmetic op
  | .push seg i => s.write_push_pop "C_PUSH" seg i
  | .pop seg i => s.write_push_pop "C_POP" seg i
  | .label l => .ok (s.write_label l)
  | .ifgoto l => .ok (s.write_if l)
  | .goto l => .ok (s.write_goto l)
  | .func n k => .ok (s.write_function n k)
  | .call n k => .ok (s.write_call n k)

/-- `Main.translate_file`: set the unit name, then consume the unit's
instruction stream in order. -/
def translate_cmds (s : CW) : List VMCmd → Except VMError CW
  | [] => .ok s
  | c :: cs => do translate_cmds (← translate_cmd s c) cs

def translate_file (s : CW) (filepath : String) (cmds : List VMCmd) : Except VMError CW :=
  translate_cmds (s.set_filename filepath) cmds

/-- The loop body of `Main.translate_files` over the discovered units. -/
def translate_units (s : CW) : List (String × List VMCmd) → Except VMError CW
  | [] => .ok s
  | (fp, cmds) :: rest => do translate_units (← translate_file s fp cmds) rest

/-- The unit loop, keeping the writer state at the moment of failure
(Python state lives on in the raised frame; modelling it explicitly
lets the sink's status at failure time be stated). -/
def translate_cmds_tracking (s : CW) : List VMCmd → Except (VMError × CW) CW
  | [] => .ok s
  | c :: cs =>
    match translate_cmd s c with
    | .ok s' => translate_cmds_tracking s' cs
    | .error e => .error (e, s)

def translate_units_tracking (s : CW) : List (String × List VMCmd) → Except (VMError × CW) CW
  | [] => .ok s
  | (fp, cmds) :: rest =>
    match translate_cmds_tracking (s.set_filename fp) cmds with
    | .ok s' => translate_units_tracking s' rest
    | .error e => .error e

/-- `Main.translate_files`: construct the `CodeWriter` (which opens the
sink and emits the bootstrap when the input path is a directory),
translate every unit, then close the sink.  There is no
`try/finally`: when a unit's translation raises, the error propagates
without `close()` running.  The result pairs the final writer state
with the error, so the sink's `closed` flag is observable on both
paths. -/
def translate_files (is_dir : Bool) (units : List (String × List VMCmd)) :
    Except (VMError × CW) CW :=
  let s := CW.init is_dir
  match translate_units_tracking s units with
  | .ok s' => .ok s'.close
  | .error e => .error e

/-!
## The target (Hack) machine

An operational model of the machine the emitted text targets: two
registers `A` and `D`, a memory `mem`, and a program counter.  The
standard assembler semantics resolve `(LABEL)` declarations to
instruction indices, the predefined symbols `SP/LCL/ARG/THIS/THAT` to
registers 0–4, and remaining symbols to variables allocated from
address 16 in order of first use.  Comment lines (`//`) and label
declarations occupy no instruction slot.
-/

/-- One assembled machine instruction: an address load, or a
compute instruction with destination, computation and jump fields. -/
inductive HInstr where
  | Anum (n : Nat)
  | Cins (dest comp jmp : String)
  deriving DecidableEq, Repr

def isCommentLine (l : String) : Bool :=
  match l.data with
  | '/' :: '/' :: _ => true
  | _ => false

def isLabelLine (l : String) : Bool :=
  match l.data with
  | '(' :: _ => true
  | _ => false

def labelNameOf (l : String) : String := String.mk ((l.data.drop 1).dropLast)

/-- Split a character list on a separator character. -/
def splitOnCharAux (c : Char) : List Char → List Char → List (List Char)
  | [], acc => [acc.reverse]
  | x :: xs, acc =>
    if x = c then acc.reverse :: splitOnCharAux c xs []
    else splitOnCharAux c xs (x :: acc)

def splitOnChar (c : Char) (l : List Char) : List (List Char) :=
  splitOnCharAux c l []

/-- Parse a decimal numeral (the `String.toNat?` semantics, stated over
the character list). -/
def parseNat? (l : List Char) : Option Nat :=
  if l = [] then none
  else if l.all (·.isDigit) then
    some (l.foldl (fun m c => m * 10 + (c.toNat - '0'.toNat)) 0)
  else none

/-- First assembler pass: label name → instruction index. -/
def collectLabels : List String → Nat → List (String × Nat)
  | [], _ => []
  | l :: ls, pc =>
    if isCommentLine l then collectLabels ls pc
    else if isLabelLine l then (labelNameOf l, pc) :: collectLabels ls pc
    else collectLabels ls (pc + 1)

def predefSym (s : String) : Option Nat :=
  match s.data with
  | ['S', 'P'] => some 0
  | ['L', 'C', 'L'] => some 1
  | ['A', 'R', 'G'] => some 2
  | ['T', 'H', 'I', 'S'] => some 3
  | ['T', 'H', 'A', 'T'] => some 4
  | _ => none

/-- Resolve the symbol of an `@` instruction: numeric literal,
predefined register, program label, or allocated variable. -/
def resolveA (labels : List (String × Nat)) (vars : List String) (sym : String) :
    Nat × List String :=
  match parseNat? sym.data with
  | some n => (n, vars)
  | none =>
    match predefSym sym with
    | some n => (n, vars)
    | none =>
      match labels.lookup sym with
      | some n => (n, vars)
      | none =>
        match vars.findIdx? (· == sym) with
        | some i => (16 + i, vars)
        | none => (16 + vars.length, vars ++ [sym])

/-- Parse one compute instruction (`dest=comp;jump` with the `dest=`
and `;jump` parts optional, as in the emitted text). -/
def parseCParts (dc : List Char) (j : String) : HInstr :=
  match splitOnChar '=' dc with
  | [d, c] => .Cins (String.mk d) (String.mk c) j
  | _ => .Cins "" (String.mk dc) j

def parseC (l : String) : HInstr :=
  match splitOnChar ';' l.data with
  | [dc, j] => parseCParts dc (String.mk j)
  | _ => parseCParts l.data ""

/-- Second assembler pass. -/
def assembleCore (labels : List (String × Nat)) (vars : List String) :
    List String → List HInstr
  | [] => []
  | l :: ls =>
    if isCommentLine l ∨ isLabelLine l then assembleCore labels vars ls
    else
      match l.data with
      | '@' :: rest =>
        let r := resolveA labels vars (String.mk rest)
        .Anum r.1 :: assembleCore labels r.2 ls
      | _ => parseC l :: assembleCore labels vars ls

def assemble (lines : List String) : List HInstr :=
  assembleCore (collectLabels lines 0) [] lines

/-- Two's-complement bitwise operations on unbounded integers
(`x & y`, `x | y`, `!x = -x-1`). -/
def hackAnd (x y : Int) : Int := Int.ldiff x (Int.ldiff x y)

def hackOr (x y : Int) : Int := Int.lor x y

/-- Value of a computation field given the registers and `M`. -/
def evalComp (c : String) (a d m : Int) : Int :=
  if c = "0" then 0
  else if c = "1" then 1
  else if c = "-1" then -1
  else if c = "D" then d
  else if c = "A" then a
  else if c = "M" then m
  else if c = "-D" then -d
  else if c = "-M" then -m
  else if c = "!D" then -d - 1
  else if c = "!M" then -m - 1
  else if c = "D+1" then d + 1
  else if c = "D-1" then d - 1
  else if c = "A+1" then a + 1
  else if c = "A-1" then a - 1
  else if c = "M+1" then m + 1
  else if c = "M-1" then m - 1
  else if c = "D+A" then d + a
  else if c = "D-A" then d - a
  else if c = "A-D" then a - d
  else if c = "D+M" then d + m
  else if c = "D-M" then d - m
  else if c = "M-D" then m - d
  else if c = "M+D" then m + d
  else if c = "D&M" then hackAnd d m
  else if c = "D|M" then hackOr d m
  else 0

/-- Whether the jump field fires on computed value `v`. -/
def jumpTaken (j : String) (v : Int) : Bool :=
  if j = "JMP" then true
  else if j = "JEQ" then v = 0
  else if j = "JNE" then v ≠ 0
  else if j = "JGT" then 0 < v
  else if j = "JLT" then v < 0
  else if j = "JGE" then 0 ≤ v
  else if j = "JLE" then v ≤ 0
  else false

/-- Machine state: registers `A`, `D`, memory, program counter. -/
structure Mach where
  a : Int
  d : Int
  mem : Nat → Int
  pc : Nat

/-- Pointwise memory update. -/
def setMem (m : Nat → Int) (addr : Nat) (v : Int) : Nat → Int :=
  fun b => if b = addr then v else m b

/-- One machine step; past the end of the program the state is fixed
(halt).  A memory write uses the address in `A` at the start of the
instruction; a taken jump loads the program counter from `A`. -/
def step (p : List HInstr) (s : Mach) : Mach :=
  match p.get? s.pc with
  | none => s
  | some (.Anum n) => { s with a := (n : Int), pc := s.pc + 1 }
  | some (.Cins dest comp jmp) =>
    let v := evalComp comp s.a s.d (s.mem s.a.toNat)
    { a := if dest.data.contains 'A' then v else s.a
      d := if dest.data.contains 'D' then v else s.d
      mem := if dest.data.contains 'M' then setMem s.mem s.a.toNat v else s.mem
      pc := if jumpTaken jmp v then s.a.toNat else s.pc + 1 }

/-- Run `n` machine steps. -/
def run (p : List HInstr) : Nat → Mach → Mach
  | 0, s => s
  | n + 1, s => run p n (step p s)

/-- Structural form of `Nat.toDigits 10`: most significant digit
first. -/
def repChars (n : Nat) : List Char :=
  if h : n < 10 then [Nat.digitChar n]
  else repChars (n / 10) ++ [Nat.digitChar (n % 10)]
  decreasing_by
    exact Nat.div_lt_self (by omega) (by omega)

/-!
## Support definitions for the individual claims
-/

/-- A representative fresh writer state (unit name set, logging on, as
`Main.translate_files` configures it). -/
def cw0 : CW :=
  { current_filename := some "Foo"
    current_function := none
    arith_jump_counter := 0
    return_counter := 0
    log_vm_commands := true
    output := []
    closed := false }

/-- The same writer with the vm-command echo off, so that `output` is
exactly the instruction stream. -/
def cwNoLog : CW :=
  { cw0 with log_vm_commands := false }

/-- The register holding a base-pointer segment's base. -/
def segReg (segment : String) : Nat :=
  (predefSym (get_ram_code segment)).getD 0

/-- Observe the sink state carried by a failed translation job. -/
def sinkClosedAtError : Except (VMError × CW) CW → Option Bool
  | .error (_, st) => some st.closed
  | .ok _ => none

/-- Scenario B of the spec: `push constant 5`, `push constant 5`,
`eq`. -/
def scenarioB_cmds : List VMCmd :=
  [.push "constant" 5, .push "constant" 5, .arith "eq"]

def scenarioB_out : List String :=
  match translate_cmds cwNoLog scenarioB_cmds with
  | .ok s => s.output
  | .error _ => []

/-- A machine memory with the stack pointer at the stack base and an
otherwise empty memory. -/
def memB : Nat → Int := fun a => if a = 0 then 256 else 0

/-- A writer currently inside function `Fn`. -/
def cwFn : CW :=
  { cw0 with current_function := some "Fn" }

/-- The expected comparison block for jump kind `jump` and counter
value `c` (what `translate_arithmetic_vm_code_to_assembly` emits for
`eq`/`gt`/`lt`). -/
def cmpSeq (jump : String) (c : Nat) : List String :=
  ["@SP", "AM=M-1", "D=M", "@SP", "AM=M-1",
   "D=M-D", "@TRUE_" ++ Nat.repr c, jump,
   "D=0", "@END_" ++ Nat.repr c, "0;JMP",
   "(TRUE_" ++ Nat.repr c ++ ")", "D=-1",
   "(END_" ++ Nat.repr c ++ ")",
   "@SP", "A=M", "M=D", "@SP", "M=M+1"]

/-- The machine code the comparison block assembles to: the counter
only names the labels, so the assembled program is independent of it
(true label at index 11, end label at index 12). -/
def cmpProg (j : String) : List HInstr :=
  [.Anum 0, .Cins "AM" "M-1" "", .Cins "D" "M" "", .Anum 0, .Cins "AM" "M-1" "",
   .Cins "D" "M-D" "", .Anum 11, .Cins "" "D" j,
   .Cins "D" "0" "", .Anum 12, .Cins "" "0" "JMP",
   .Cins "D" "-1" "",
   .Anum 0, .Cins "A" "M" "", .Cins "M" "D" "", .Anum 0, .Cins "M" "M+1" ""]

/-- A memory with the stack pointer at 258 and the value 5 in every
other cell (so both comparison operands are 5). -/
def memB5 : Nat → Int := fun a => if a = 0 then 258 else 5

/-- The machine code `return_asm` assembles to (`frame` and `return`
are the variables at 16 and 17). -/
def returnProg : List HInstr :=
  [.Anum 1, .Cins "D" "M" "", .Anum 16, .Cins "M" "D" "",
   .Anum 5, .Cins "A" "D-A" "", .Cins "D" "M" "", .Anum 17, .Cins "M" "D" "",
   .Anum 0, .Cins "AM" "M-1" "", .Cins "D" "M" "",
   .Anum 2, .Cins "A" "M" "", .Cins "M" "D" "",
   .Cins "D" "A+1" "", .Anum 0, .Cins "M" "D" "",
   .Anum 16, .Cins "D" "M" "", .Anum 1, .Cins "A" "D-A" "", .Cins "D" "M" "",
   .Anum 4, .Cins "M" "D" "",
   .Anum 16, .Cins "D" "M" "", .Anum 2, .Cins "A" "D-A" "", .Cins "D" "M" "",
   .Anum 3, .Cins "M" "D" "",
   .Anum 16, .Cins "D" "M" "", .Anum 3, .Cins "A" "D-A" "", .Cins "D" "M" "",
   .Anum 2, .Cins "M" "D" "",
   .Anum 16, .Cins "D" "M" "", .Anum 4, .Cins "A" "D-A" "", .Cins "D" "M" "",
   .Anum 1, .Cins "M" "D" "",
   .Anum 17, .Cins "A" "M" "", .Cins "" "0" "JMP"]

/-- A memory describing a call frame: stack pointer 305, local base
300 (so the frame words sit at 295–299), argument base 295, and the
cell at each other address `a` holding the recognisable value
`1000 + a`. -/
def memRet : Nat → Int :=
  fun a => if a = 0 then 305 else if a = 1 then 300 else if a = 2 then 295 else (1000 + a)

/-- The machine code `call Sys.init n` (from a writer whose return
counter is 0) assembles to: the return-address label resolves to index
42 — one past the jump at index 41 — and `Sys.init` to the variable
address 16. -/
def callProg (n : Nat) : List HInstr :=
  [.Anum 42, .Cins "D" "A" "", .Anum 0, .Cins "AM" "M+1" "", .Cins "A" "A-1" "", .Cins "M" "D" "",
   .Anum 1, .Cins "D" "M" "", .Anum 0, .Cins "AM" "M+1" "", .Cins "A" "A-1" "", .Cins "M" "D" "",
   .Anum 2, .Cins "D" "M" "", .Anum 0, .Cins "AM" "M+1" "", .Cins "A" "A-1" "", .Cins "M" "D" "",
   .Anum 3, .Cins "D" "M" "", .Anum 0, .Cins "AM" "M+1" "", .Cins "A" "A-1" "", .Cins "M" "D" "",
   .Anum 4, .Cins "D" "M" "", .Anum 0, .Cins "AM" "M+1" "", .Cins "A" "A-1" "", .Cins "M" "D" "",
   .Anum 0, .Cins "D" "M" "", .Anum (n + 5), .Cins "D" "D-A" "", .Anum 2, .Cins "M" "D" "",
   .Anum 0, .Cins "D" "M" "", .Anum 1, .Cins "M" "D" "",
   .Anum 16, .Cins "" "0" "JMP"]

/-- A memory with stack pointer 305 and the recognisable value
`1000 + a` elsewhere. -/
def memCall : Nat → Int :=
  fun a => if a = 0 then 305 else (1000 + a)

/-- The generation state as `CodeWriter.__init__` builds it before the
`write_init` call. -/
def emptyCW (log : Bool) : CW :=
  { current_filename := none
    current_function := none
    arith_jump_counter := 0
    return_counter := 0
    log_vm_commands := log
    output := []
    closed := false }

/-- How the writer state may evolve across translation steps: output
only appended, sink status and echo flag untouched, label counters
never decreased. -/
def CWevol (s s' : CW) : Prop :=
  s.output <+: s'.output ∧ s'.closed = s.closed ∧
    s'.log_vm_commands = s.log_vm_commands ∧
    s.arith_jump_counter ≤ s'.arith_jump_counter ∧
    s.return_counter ≤ s'.return_counter

/-- The output lines accumulated by a translation run, successful or
not. -/
def outputOf : Except (VMError × CW) CW → List String
  | .ok s => s.output
  | .error (_, st) => st.output

/-- The bootstrap block of a directory job with command echo on:
stack-pointer initialisation followed by `call Sys.init 0`. -/
def bootstrapLines : List String :=
  ["//  Boostrap code", "@256", "D=A", "@SP", "M=D", "//  call Sys.init 0",
   "@RETURN_0", "D=A", "@SP", "AM=M+1", "A=A-1", "M=D",
   "@LCL", "D=M", "@SP", "AM=M+1", "A=A-1", "M=D",
   "@ARG", "D=M", "@SP", "AM=M+1", "A=A-1", "M=D",
   "@THIS", "D=M", "@SP", "AM=M+1", "A=A-1", "M=D",
   "@THAT", "D=M", "@SP", "AM=M+1", "A=A-1", "M=D",
   "@SP", "D=M", "@5", "D=D-A", "@ARG", "M=D",
   "@SP", "D=M", "@LCL", "M=D",
   "@Sys.init", "0;JMP", "(RETURN_0)"]

def mkTrue (n : Nat) : String := "(TRUE_" ++ Nat.repr n ++ ")"

def mkEnd (n : Nat) : String := "(END_" ++ Nat.repr n ++ ")"

def mkRet (n : Nat) : String := "(RETURN_" ++ Nat.repr n ++ ")"

def isBranchDecl (l : String) : Prop := ∃ n, l = mkTrue n ∨ l = mkEnd n ∨ l = mkRet n

def nonBranchName (x : String) : Prop :=
  ∀ n : Nat, x ≠ "TRUE_" ++ Nat.repr n ∧ x ≠ "END_" ++ Nat.repr n ∧ x ≠ "RETURN_" ++ Nat.repr n

def WFcmd : VMCmd → Prop
  | .label l => nonBranchName l
  | .func name _ => nonBranchName name
  | _ => True

def WFunits (units : List (String × List VMCmd)) : Prop :=
  ∀ u ∈ units, ∀ c ∈ u.2, WFcmd c

def BrInv (s : CW) : Prop :=
  (∀ n, s.arith_jump_counter ≤ n → mkTrue n ∉ s.output ∧ mkEnd n ∉ s.output) ∧
  (∀ n, s.return_counter ≤ n → mkRet n ∉ s.output) ∧
  (∀ l, isBranchDecl l → s.output.count l ≤ 1)

def declB (x : String) : Bool := x.data.head? == some '('

def callAsm (name : String) (k rc : Nat) : List String :=
  ["@" ++ ("RETURN_" ++ Nat.repr rc), "D=A"] ++ CW.callPushTail ++
  (["local", "argument", "this", "that"].flatMap fun mem =>
    ["@" ++ get_ram_code mem, "D=M"] ++ CW.callPushTail) ++
  ["@SP", "D=M", "@" ++ Nat.repr (k + 5), "D=D-A",
   "@" ++ get_ram_code "argument", "M=D",
   "@SP", "D=M", "@" ++ get_ram_code "local", "M=D",
   "@" ++ name, "0;JMP",
   "(" ++ ("RETURN_" ++ Nat.repr rc) ++ ")"]

/-!
## Theorems
-/

theorem setMem_self (m : Nat → Int) (addr : Nat) (v : Int) :
    setMem m addr v addr = v := by
  simp [setMem]

theorem setMem_other (m : Nat → Int) (addr b : Nat) (v : Int) (h : b ≠ addr) :
    setMem m addr v b = m b := by
  simp [setMem, h]

/-!
### Decimal rendering of counters

The generator renders its counters with Python decimal formatting,
modelled by `Nat.repr`.  The assembler parses numeric `@` operands with
the `String.toNat?` semantics (`parseNat?`).  This section proves the
roundtrips, which also yield injectivity of the rendering — the
backbone of the label-uniqueness claims.
-/

theorem toDigitsCore_eq_repChars :
    ∀ (f n : Nat) (ds : List Char), n < f →
      Nat.toDigitsCore 10 f n ds = repChars n ++ ds := by
  intro f
  induction f with
  | zero => intro n ds h; omega
  | succ f ih =>
    intro n ds h
    rw [Nat.toDigitsCore]
    by_cases h10 : n / 10 = 0
    · have hn : n < 10 := by omega
      rw [if_pos h10, repChars, dif_pos hn, Nat.mod_eq_of_lt hn]
      rfl
    · have hn : ¬ n < 10 := by omega
      rw [if_neg h10, ih (n / 10) _ (by omega)]
      conv_rhs => rw [repChars]
      rw [dif_neg hn, List.append_assoc]
      rfl

theorem toDigits_eq_repChars (n : Nat) : Nat.toDigits 10 n = repChars n := by
  rw [Nat.toDigits, toDigitsCore_eq_repChars (n + 1) n [] (by omega),
    List.append_nil]

theorem repr_eq_repChars (n : Nat) : Nat.repr n = (repChars n).asString := by
  rw [Nat.repr, toDigits_eq_repChars]

theorem repChars_ne_nil (n : Nat) : repChars n ≠ [] := by
  rw [repChars]
  split
  · simp
  · simp

theorem digitChar_isDigit {m : Nat} (h : m < 10) :
    (Nat.digitChar m).isDigit = true := by
  interval_cases m <;> decide

theorem digitChar_toNat {m : Nat} (h : m < 10) :
    (Nat.digitChar m).toNat = 48 + m := by
  interval_cases m <;> decide

theorem repChars_all_digits (n : Nat) :
    ∀ c ∈ repChars n, c.isDigit = true := by
  induction n using repChars.induct with
  | case1 n h =>
    rw [repChars, dif_pos h]
    intro c hc
    rw [List.mem_singleton] at hc
    subst hc
    exact digitChar_isDigit h
  | case2 n h ih =>
    rw [repChars, dif_neg h]
    intro c hc
    rcases List.mem_append.mp hc with h1 | h1
    · exact ih c h1
    · rw [List.mem_singleton] at h1
      subst h1
      exact digitChar_isDigit (Nat.mod_lt _ (by omega))

theorem foldl_repChars (n acc : Nat) :
    (repChars n).foldl (fun m c => m * 10 + (c.toNat - '0'.toNat)) acc =
      acc * 10 ^ (repChars n).length + n := by
  induction n using repChars.induct generalizing acc with
  | case1 n h =>
    rw [repChars, dif_pos h]
    simp [digitChar_toNat h]
  | case2 n h ih =>
    have hm : n % 10 < 10 := Nat.mod_lt _ (by omega)
    rw [repChars, dif_neg h, List.foldl_append, ih]
    simp only [List.foldl_cons, List.foldl_nil, List.length_append,
      List.length_singleton, digitChar_toNat hm, pow_succ]
    have h1 : 48 + n % 10 - '0'.toNat = n % 10 := by
      have h0 : '0'.toNat = 48 := by decide
      omega
    rw [h1]
    have key : ∀ Q : ℕ, (Q + n / 10) * 10 + n % 10 = Q * 10 + n := by
      intro Q
      omega
    rw [key]
    ring

theorem toNat?_repr (n : Nat) : (Nat.repr n).toNat? = some n := by
  rw [repr_eq_repChars, String.toNat?]
  have hnat : (repChars n).asString.isNat = true := by
    rw [String.isNat]
    simp only [Bool.and_eq_true, Bool.not_eq_true']
    constructor
    · rw [Bool.eq_false_iff]
      intro hemp
      rw [String.isEmpty_iff] at hemp
      have := congrArg String.toList hemp
      rw [List.toList_asString] at this
      exact repChars_ne_nil n this
    · rw [String.all_iff]
      intro c hc
      exact repChars_all_digits n c hc
  rw [if_pos hnat, String.foldl_eq]
  have : (repChars n).asString.data = repChars n := by
    have := List.toList_asString (repChars n)
    simpa [String.toList] using this
  rw [this, foldl_repChars]
  simp

theorem repr_data (n : Nat) : (Nat.repr n).data = repChars n := by
  rw [repr_eq_repChars]
  have := List.toList_asString (repChars n)
  simpa [String.toList] using this

theorem parseNat?_repr (n : Nat) : parseNat? (Nat.repr n).data = some n := by
  rw [repr_data, parseNat?]
  rw [if_neg (repChars_ne_nil n)]
  have hall : (repChars n).all (·.isDigit) = true :=
    List.all_eq_true.mpr (repChars_all_digits n)
  rw [if_pos hall, foldl_repChars]
  simp

theorem repr_inj_nat {m n : Nat} (h : Nat.repr m = Nat.repr n) : m = n := by
  have h1 := toNat?_repr m
  have h2 := toNat?_repr n
  rw [h, h2] at h1
  injection h1 with hnm
  omega

/-!
### Small reduction helpers
-/

theorem parseNat?_nondigit (c : Char) (l : List Char) (h : c.isDigit = false) :
    parseNat? (c :: l) = none := by
  simp [parseNat?, h]

theorem exc_bind_ok {α β : Type} (x : α) (f : α → Except VMError β) :
    (Except.ok x >>= f) = f x := rfl

theorem exc_bind_error {α β : Type} (e : VMError) (f : α → Except VMError β) :
    ((Except.error e : Except VMError α) >>= f) = Except.error e := rfl

theorem str_append_assoc (x y z : String) : x ++ y ++ z = x ++ (y ++ z) :=
  match x, y, z with
  | ⟨a⟩, ⟨b⟩, ⟨c⟩ => congrArg String.mk (List.append_assoc a b c)

theorem exc_bind_ok_inv {α β : Type} {e : Except VMError α} {f : α → Except VMError β} {b : β}
    (h : (e >>= f) = .ok b) : ∃ a, e = .ok a ∧ f a = .ok b := by
  cases e with
  | error err => rw [exc_bind_error] at h; cases h
  | ok a => exact ⟨a, rfl, by rw [exc_bind_ok] at h; exact h⟩

theorem string_mk_eq_iff (l1 l2 : List Char) : (String.mk l1 = String.mk l2) ↔ l1 = l2 := by
  constructor
  · intro h
    injection h
  · intro h
    rw [h]

theorem string_beq_decide (s t : String) : (s == t) = decide (s = t) := rfl

theorem mk_TRUE (x : String) : String.mk ('T' :: 'R' :: 'U' :: 'E' :: '_' :: x.data) = "TRUE_" ++ x := rfl

theorem mk_END (x : String) : String.mk ('E' :: 'N' :: 'D' :: '_' :: x.data) = "END_" ++ x := rfl

theorem str_END_ne_TRUE (x y : String) : ("END_" ++ x = "TRUE_" ++ y) ↔ False := by
  simp only [iff_false]
  intro h
  have hd := congrArg String.data h
  simp at hd

theorem labelNameOf_TRUE (x : String) : labelNameOf ("(TRUE_" ++ x ++ ")") = "TRUE_" ++ x := by
  cases x with
  | mk l =>
    simp only [labelNameOf]
    rw [show ("(TRUE_" ++ String.mk l ++ ")").data =
      ('(' : Char) :: (("TRUE_".data ++ l) ++ [')']) from rfl]
    rw [show ((('(' : Char) :: (("TRUE_".data ++ l) ++ [')'])).drop 1) =
      ("TRUE_".data ++ l) ++ [')'] from rfl]
    rw [List.dropLast_concat]
    rfl

theorem labelNameOf_END (x : String) : labelNameOf ("(END_" ++ x ++ ")") = "END_" ++ x := by
  cases x with
  | mk l =>
    simp only [labelNameOf]
    rw [show ("(END_" ++ String.mk l ++ ")").data =
      ('(' : Char) :: (("END_".data ++ l) ++ [')']) from rfl]
    rw [show ((('(' : Char) :: (("END_".data ++ l) ++ [')'])).drop 1) =
      ("END_".data ++ l) ++ [')'] from rfl]
    rw [List.dropLast_concat]
    rfl

set_option maxHeartbeats 1000000 in
theorem assemble_cmpSeq_JEQ (c : Nat) :
    assemble (cmpSeq "D;JEQ" c) = cmpProg "JEQ" := by
  simp +decide [cmpSeq, cmpProg, assemble, collectLabels, assembleCore,
    isCommentLine, isLabelLine, labelNameOf_TRUE, labelNameOf_END,
    string_mk_eq_iff, string_beq_decide, mk_TRUE, mk_END, str_END_ne_TRUE,
    List.lookup, resolveA, parseC, parseCParts, predefSym, parseNat?_nondigit,
    splitOnChar, splitOnCharAux]

set_option maxHeartbeats 1000000 in
theorem assemble_cmpSeq_JGT (c : Nat) :
    assemble (cmpSeq "D;JGT" c) = cmpProg "JGT" := by
  simp +decide [cmpSeq, cmpProg, assemble, collectLabels, assembleCore,
    isCommentLine, isLabelLine, labelNameOf_TRUE, labelNameOf_END,
    string_mk_eq_iff, string_beq_decide, mk_TRUE, mk_END, str_END_ne_TRUE,
    List.lookup, resolveA, parseC, parseCParts, predefSym, parseNat?_nondigit,
    splitOnChar, splitOnCharAux]

set_option maxHeartbeats 1000000 in
theorem assemble_cmpSeq_JLT (c : Nat) :
    assemble (cmpSeq "D;JLT" c) = cmpProg "JLT" := by
  simp +decide [cmpSeq, cmpProg, assemble, collectLabels, assembleCore,
    isCommentLine, isLabelLine, labelNameOf_TRUE, labelNameOf_END,
    string_mk_eq_iff, string_beq_decide, mk_TRUE, mk_END, str_END_ne_TRUE,
    List.lookup, resolveA, parseC, parseCParts, predefSym, parseNat?_nondigit,
    splitOnChar, splitOnCharAux]

set_option maxHeartbeats 1000000 in
theorem run_cmpProg_JEQ (M : Nat → Int) (x y a0 d0 : Int)
    (hsp : M 0 = 258) (hx : M 256 = x) (hy : M 257 = y) :
    ((run (cmpProg "JEQ") 17 { a := a0, d := d0, mem := M, pc := 0 }).mem 0 = 257 ∧
      (run (cmpProg "JEQ") 17 { a := a0, d := d0, mem := M, pc := 0 }).mem 256 =
        (if x = y then -1 else 0)) := by
  by_cases hxy : x = y <;> constructor <;>
    simp [cmpProg, run, step, evalComp, jumpTaken, setMem, hsp, hx, hy, hxy, sub_eq_zero]

set_option maxHeartbeats 1000000 in
theorem run_cmpProg_JGT (M : Nat → Int) (x y a0 d0 : Int)
    (hsp : M 0 = 258) (hx : M 256 = x) (hy : M 257 = y) :
    ((run (cmpProg "JGT") 17 { a := a0, d := d0, mem := M, pc := 0 }).mem 0 = 257 ∧
      (run (cmpProg "JGT") 17 { a := a0, d := d0, mem := M, pc := 0 }).mem 256 =
        (if y < x then -1 else 0)) := by
  by_cases hxy : y < x <;> constructor <;>
    simp [cmpProg, run, step, evalComp, jumpTaken, setMem, hsp, hx, hy, hxy, sub_pos]

theorem assemble_return : assemble CW.return_asm = returnProg := by decide

set_option maxHeartbeats 2000000 in
theorem assemble_call (n : Nat) :
    assemble ((cwNoLog.write_call "Sys.init" n).output) = callProg n := by
  simp +decide [CW.write_call, CW.write, CW.callPushTail, get_ram_code, SEGMENTS_MAPPER,
    cwNoLog, cw0, callProg, assemble, collectLabels, assembleCore,
    isCommentLine, isLabelLine, labelNameOf, string_mk_eq_iff, string_beq_decide,
    List.lookup, resolveA, parseC, parseCParts, predefSym, parseNat?_repr, parseNat?_nondigit,
    splitOnChar, splitOnCharAux]

set_option maxHeartbeats 2000000 in
set_option maxRecDepth 10000 in
theorem run_call (n : Nat) (M : Nat → Int) (a0 d0 : Int) (hsp : M 0 = 305) :
    (run (callProg n) 42 { a := a0, d := d0, mem := M, pc := 0 }).mem 305 = 42 ∧
    (run (callProg n) 42 { a := a0, d := d0, mem := M, pc := 0 }).mem 306 = M 1 ∧
    (run (callProg n) 42 { a := a0, d := d0, mem := M, pc := 0 }).mem 307 = M 2 ∧
    (run (callProg n) 42 { a := a0, d := d0, mem := M, pc := 0 }).mem 308 = M 3 ∧
    (run (callProg n) 42 { a := a0, d := d0, mem := M, pc := 0 }).mem 309 = M 4 ∧
    (run (callProg n) 42 { a := a0, d := d0, mem := M, pc := 0 }).mem 2 = 310 - ((n : Int) + 5) ∧
    (run (callProg n) 42 { a := a0, d := d0, mem := M, pc := 0 }).mem 1 = 310 ∧
    (run (callProg n) 42 { a := a0, d := d0, mem := M, pc := 0 }).mem 0 = 310 ∧
    (run (callProg n) 42 { a := a0, d := d0, mem := M, pc := 0 }).pc = 16 := by
  simp [callProg, run, step, evalComp, jumpTaken, setMem, hsp]

set_option maxHeartbeats 2000000 in
set_option maxRecDepth 10000 in
theorem run_return (M : Nat → Int) (a0 d0 : Int)
    (hsp : M 0 = 305) (hlcl : M 1 = 300) (harg : M 2 = 295) :
    (run returnProg 49 { a := a0, d := d0, mem := M, pc := 0 }).mem 0 = 296 ∧
    (run returnProg 49 { a := a0, d := d0, mem := M, pc := 0 }).mem 295 = M 304 ∧
    (run returnProg 49 { a := a0, d := d0, mem := M, pc := 0 }).mem 4 = M 299 ∧
    (run returnProg 49 { a := a0, d := d0, mem := M, pc := 0 }).mem 3 = M 298 ∧
    (run returnProg 49 { a := a0, d := d0, mem := M, pc := 0 }).mem 2 = M 297 ∧
    (run returnProg 49 { a := a0, d := d0, mem := M, pc := 0 }).mem 1 = M 296 ∧
    (run returnProg 49 { a := a0, d := d0, mem := M, pc := 0 }).pc = (M 295).toNat := by
  simp [returnProg, run, step, evalComp, jumpTaken, setMem, hsp, hlcl, harg]

set_option maxHeartbeats 1000000 in
theorem run_cmpProg_JLT (M : Nat → Int) (x y a0 d0 : Int)
    (hsp : M 0 = 258) (hx : M 256 = x) (hy : M 257 = y) :
    ((run (cmpProg "JLT") 17 { a := a0, d := d0, mem := M, pc := 0 }).mem 0 = 257 ∧
      (run (cmpProg "JLT") 17 { a := a0, d := d0, mem := M, pc := 0 }).mem 256 =
        (if x < y then -1 else 0)) := by
  by_cases hxy : x < y <;> constructor <;>
    simp [cmpProg, run, step, evalComp, jumpTaken, setMem, hsp, hx, hy, hxy, sub_neg]

/-!
### Evolution of the writer state across translation steps
-/

theorem CWevol_refl (s : CW) : CWevol s s :=
  ⟨List.prefix_refl _, rfl, rfl, le_refl _, le_refl _⟩

theorem CWevol_trans {a b c : CW} (h1 : CWevol a b) (h2 : CWevol b c) : CWevol a c :=
  ⟨h1.1.trans h2.1, h2.2.1.trans h1.2.1, h2.2.2.1.trans h1.2.2.1,
    le_trans h1.2.2.2.1 h2.2.2.2.1, le_trans h1.2.2.2.2 h2.2.2.2.2⟩

/-- The comparison branch is the only place
`translate_arithmetic_vm_code_to_assembly` touches the state: it bumps
the jump counter by exactly one. -/
theorem translate_arith_state (s : CW) (cmd : String) (asm : List String) (s' : CW)
    (h : s.translate_arithmetic_vm_code_to_assembly cmd = .ok (asm, s')) :
    s' = s ∨ s' = { s with arith_jump_counter := s.arith_jump_counter + 1 } := by
  unfold CW.translate_arithmetic_vm_code_to_assembly at h
  repeat' split at h
  all_goals simp_all [exc_bind_ok, exc_bind_error]

theorem translate_cmd_evol (c : VMCmd) (s s' : CW) (h : translate_cmd s c = .ok s') :
    CWevol s s' := by
  cases c with
  | arith op =>
    simp only [translate_cmd, CW.write_arithmetic] at h
    obtain ⟨⟨asm2, s2⟩, htr, hf⟩ := exc_bind_ok_inv h
    simp only [Except.ok.injEq] at hf
    subst hf
    rcases translate_arith_state _ op asm2 s2 htr with h2 | h2 <;> subst h2 <;>
      by_cases hl : s.log_vm_commands <;>
      simp [CWevol, CW.write, List.append_assoc, hl, List.prefix_append, Nat.le_succ]
  | push seg i =>
    simp only [translate_cmd] at h
    unfold CW.write_push_pop at h
    repeat' split at h
    all_goals try contradiction
    all_goals dsimp only at h
    all_goals obtain ⟨asm2, htr, hf⟩ := exc_bind_ok_inv h
    all_goals simp only [Except.ok.injEq] at hf
    all_goals subst hf
    all_goals simp [CWevol, CW.write, List.append_assoc, List.prefix_append]
  | pop seg i =>
    simp only [translate_cmd] at h
    unfold CW.write_push_pop at h
    repeat' split at h
    all_goals try contradiction
    all_goals dsimp only at h
    all_goals obtain ⟨asm2, htr, hf⟩ := exc_bind_ok_inv h
    all_goals simp only [Except.ok.injEq] at hf
    all_goals subst hf
    all_goals simp [CWevol, CW.write, List.append_assoc, List.prefix_append]
  | label l =>
    simp only [translate_cmd, Except.ok.injEq] at h
    subst h
    by_cases hl : s.log_vm_commands <;>
      simp [CWevol, CW.write_label, CW.write, List.append_assoc, hl, List.prefix_append]
  | goto l =>
    simp only [translate_cmd, Except.ok.injEq] at h
    subst h
    by_cases hl : s.log_vm_commands <;>
      simp [CWevol, CW.write_goto, CW.write, List.append_assoc, hl, List.prefix_append]
  | ifgoto l =>
    simp only [translate_cmd, Except.ok.injEq] at h
    subst h
    by_cases hl : s.log_vm_commands <;>
      simp [CWevol, CW.write_if, CW.write, List.append_assoc, hl, List.prefix_append]
  | func n k =>
    simp only [translate_cmd, Except.ok.injEq] at h
    subst h
    by_cases hl : s.log_vm_commands <;>
      simp [CWevol, CW.write_function, CW.write, List.append_assoc, hl, List.prefix_append]
  | call n k =>
    simp only [translate_cmd, Except.ok.injEq] at h
    subst h
    by_cases hl : s.log_vm_commands <;>
      simp [CWevol, CW.write_call, CW.write, List.append_assoc, hl, List.prefix_append,
        Nat.le_succ]
  | ret =>
    simp only [translate_cmd, Except.ok.injEq] at h
    subst h
    by_cases hl : s.log_vm_commands <;>
      simp [CWevol, CW.write_return, CW.write, List.append_assoc, hl, List.prefix_append]

theorem set_filename_evol (s : CW) (fp : String) : CWevol s (s.set_filename fp) :=
  ⟨List.prefix_refl _, rfl, rfl, le_refl _, le_refl _⟩

theorem cmds_tracking_ok_evol :
    ∀ (cs : List VMCmd) (s s' : CW), translate_cmds_tracking s cs = .ok s' → CWevol s s' := by
  intro cs
  induction cs with
  | nil =>
    intro s s' h
    simp only [translate_cmds_tracking, Except.ok.injEq] at h
    subst h
    exact CWevol_refl s
  | cons c cs ih =>
    intro s s' h
    simp only [translate_cmds_tracking] at h
    cases htc : translate_cmd s c with
    | error e => rw [htc] at h; cases h
    | ok s1 =>
      rw [htc] at h
      exact CWevol_trans (translate_cmd_evol c s s1 htc) (ih s1 s' h)

theorem cmds_tracking_err_evol :
    ∀ (cs : List VMCmd) (s : CW) (e : VMError) (st : CW),
      translate_cmds_tracking s cs = .error (e, st) → CWevol s st := by
  intro cs
  induction cs with
  | nil =>
    intro s e st h
    simp only [translate_cmds_tracking] at h
    cases h
  | cons c cs ih =>
    intro s e st h
    simp only [translate_cmds_tracking] at h
    cases htc : translate_cmd s c with
    | error e0 =>
      rw [htc] at h
      simp only [Except.error.injEq, Prod.mk.injEq] at h
      rw [← h.2]
      exact CWevol_refl s
    | ok s1 =>
      rw [htc] at h
      exact CWevol_trans (translate_cmd_evol c s s1 htc) (ih s1 e st h)

theorem units_tracking_ok_evol :
    ∀ (us : List (String × List VMCmd)) (s s' : CW),
      translate_units_tracking s us = .ok s' → CWevol s s' := by
  intro us
  induction us with
  | nil =>
    intro s s' h
    simp only [translate_units_tracking, Except.ok.injEq] at h
    subst h
    exact CWevol_refl s
  | cons u us ih =>
    intro s s' h
    obtain ⟨fp, cmds⟩ := u
    simp only [translate_units_tracking] at h
    cases htc : translate_cmds_tracking (s.set_filename fp) cmds with
    | error e => rw [htc] at h; cases h
    | ok s1 =>
      rw [htc] at h
      exact CWevol_trans (set_filename_evol s fp)
        (CWevol_trans (cmds_tracking_ok_evol cmds _ s1 htc) (ih s1 s' h))

theorem units_tracking_err_evol :
    ∀ (us : List (String × List VMCmd)) (s : CW) (e : VMError) (st : CW),
      translate_units_tracking s us = .error (e, st) → CWevol s st := by
  intro us
  induction us with
  | nil =>
    intro s e st h
    simp only [translate_units_tracking] at h
    cases h
  | cons u us ih =>
    intro s e st h
    obtain ⟨fp, cmds⟩ := u
    simp only [translate_units_tracking] at h
    cases htc : translate_cmds_tracking (s.set_filename fp) cmds with
    | error e0 =>
      rw [htc] at h
      simp only [Except.error.injEq] at h
      subst h
      exact CWevol_trans (set_filename_evol s fp)
        (cmds_tracking_err_evol cmds _ e st htc)
    | ok s1 =>
      rw [htc] at h
      exact CWevol_trans (set_filename_evol s fp)
        (CWevol_trans (cmds_tracking_ok_evol cmds _ s1 htc) (ih s1 e st h))

/-!
### Claims
-/

theorem branchDecl_head {l : String} (h : isBranchDecl l) : l.data.head? = some '(' := by
  obtain ⟨n, h | h | h⟩ := h <;> subst h <;> rfl

theorem not_branch_of_head {l : String} (h : l.data.head? ≠ some '(') : ¬ isBranchDecl l :=
  fun hb => h (branchDecl_head hb)

theorem repr_no_dot (n : Nat) : ('.' : Char) ∉ (Nat.repr n).data := by
  rw [repr_data]
  intro hmem
  have := repChars_all_digits n '.' hmem
  simp at this

theorem mkTrue_inj {m n : Nat} (h : mkTrue m = mkTrue n) : m = n := by
  apply repr_inj_nat
  have hd := congrArg String.data h
  rw [show (mkTrue m).data = ("(TRUE_".data ++ (Nat.repr m).data) ++ [')'] from rfl] at hd
  rw [show (mkTrue n).data = ("(TRUE_".data ++ (Nat.repr n).data) ++ [')'] from rfl] at hd
  have h2 := List.append_left_injective _ hd
  have h3 := List.append_right_injective _ h2
  exact congrArg String.mk h3

theorem mkEnd_inj {m n : Nat} (h : mkEnd m = mkEnd n) : m = n := by
  apply repr_inj_nat
  have hd := congrArg String.data h
  rw [show (mkEnd m).data = ("(END_".data ++ (Nat.repr m).data) ++ [')'] from rfl] at hd
  rw [show (mkEnd n).data = ("(END_".data ++ (Nat.repr n).data) ++ [')'] from rfl] at hd
  have h2 := List.append_left_injective _ hd
  have h3 := List.append_right_injective _ h2
  exact congrArg String.mk h3

theorem mkRet_inj {m n : Nat} (h : mkRet m = mkRet n) : m = n := by
  apply repr_inj_nat
  have hd := congrArg String.data h
  rw [show (mkRet m).data = ("(RETURN_".data ++ (Nat.repr m).data) ++ [')'] from rfl] at hd
  rw [show (mkRet n).data = ("(RETURN_".data ++ (Nat.repr n).data) ++ [')'] from rfl] at hd
  have h2 := List.append_left_injective _ hd
  have h3 := List.append_right_injective _ h2
  exact congrArg String.mk h3

theorem mkTrue_ne_mkEnd (m n : Nat) : mkTrue m ≠ mkEnd n := by
  intro h
  have hd := congrArg String.data h
  simp [mkTrue, mkEnd] at hd

theorem mkTrue_ne_mkRet (m n : Nat) : mkTrue m ≠ mkRet n := by
  intro h
  have hd := congrArg String.data h
  simp [mkTrue, mkRet] at hd

theorem mkEnd_ne_mkRet (m n : Nat) : mkEnd m ≠ mkRet n := by
  intro h
  have hd := congrArg String.data h
  simp [mkEnd, mkRet] at hd

theorem paren_inj {x y : String} (h : "(" ++ x ++ ")" = "(" ++ y ++ ")") : x = y := by
  have hd := congrArg String.data h
  rw [show ("(" ++ x ++ ")").data = ('(' : Char) :: (x.data ++ [')']) from rfl] at hd
  rw [show ("(" ++ y ++ ")").data = ('(' : Char) :: (y.data ++ [')']) from rfl] at hd
  simp only [List.cons.injEq, true_and] at hd
  have h2 := List.append_left_injective _ hd
  exact congrArg String.mk h2

theorem mkTrue_paren (n : Nat) : mkTrue n = "(" ++ ("TRUE_" ++ Nat.repr n) ++ ")" := rfl

theorem mkEnd_paren (n : Nat) : mkEnd n = "(" ++ ("END_" ++ Nat.repr n) ++ ")" := rfl

theorem mkRet_paren (n : Nat) : mkRet n = "(" ++ ("RETURN_" ++ Nat.repr n) ++ ")" := rfl

theorem head_append (x y : String) (c : Char) (h : x.data.head? = some c) :
    (x ++ y).data.head? = some c := by
  cases hx : x.data with
  | nil => rw [hx] at h; cases h
  | cons a as =>
    rw [show (x ++ y).data = x.data ++ y.data from rfl, hx]
    rw [hx] at h
    simpa using h

theorem dotted_nonBranchName (x : String) (hx : ('.' : Char) ∈ x.data) : nonBranchName x := by
  have key : ∀ (pre : String) (n : Nat), ('.' : Char) ∉ pre.data → x ≠ pre ++ Nat.repr n := by
    intro pre n hpre h
    rw [h, show (pre ++ Nat.repr n).data = pre.data ++ (Nat.repr n).data from rfl] at hx
    rcases List.mem_append.mp hx with h1 | h1
    · exact hpre h1
    · exact repr_no_dot n h1
  intro n
  exact ⟨key "TRUE_" n (by decide), key "END_" n (by decide), key "RETURN_" n (by decide)⟩

theorem head_at (x : String) : ("@" ++ x).data.head? = some '@' :=
  head_append "@" x '@' rfl

theorem head_log (x : String) : ("//  " ++ x).data.head? = some '/' :=
  head_append "//  " x '/' rfl

theorem head_static (f x : String) : ("@" ++ f ++ "." ++ x).data.head? = some '@' :=
  head_append _ _ '@' (head_append _ _ '@' (head_at f))

theorem nodecl_of_heads {chunk : List String}
    (h : ∀ l ∈ chunk, l.data.head? ≠ some '(') : ∀ l ∈ chunk, ¬ isBranchDecl l :=
  fun l hl => not_branch_of_head (h l hl)

theorem translate_segment_heads (s : CW) (seg : String) (idx : Option Nat) (seq : List String)
    (h : s.translate_segment_vm_code seg idx = .ok seq) :
    ∀ l ∈ seq, l.data.head? ≠ some '(' := by
  unfold CW.translate_segment_vm_code at h
  repeat' split at h
  all_goals cases h
  all_goals intro l hl
  all_goals fin_cases hl
  all_goals first
    | decide
    | (rw [head_at]; decide)
    | (rw [head_static]; decide)

theorem pure_ok {α : Type} (x : α) : (pure x : Except VMError α) = .ok x := rfl

theorem translate_push_heads (s : CW) (seg : String) (idx : Option Nat) (seq : List String)
    (h : s.translate_push_vm_code_to_asm seg idx = .ok seq) :
    ∀ l ∈ seq, l.data.head? ≠ some '(' := by
  unfold CW.translate_push_vm_code_to_asm at h
  dsimp only at h
  split at h
  · obtain ⟨seq2, hseg, hrest⟩ := exc_bind_ok_inv h
    split at hrest
    all_goals rw [pure_ok, exc_bind_ok] at hrest
    all_goals simp only [Except.ok.injEq] at hrest
    all_goals subst hrest
    all_goals intro l hl
    · rcases List.mem_append.mp hl with h1 | h1
      · rcases List.mem_append.mp h1 with h2 | h2
        · exact translate_segment_heads s seg idx seq2 hseg l h2
        · fin_cases h2 <;> decide
      · fin_cases h1 <;> decide
    · rcases List.mem_append.mp hl with h1 | h1
      · exact translate_segment_heads s seg idx seq2 hseg l h1
      · fin_cases h1 <;> decide
  · rw [pure_ok, exc_bind_ok] at h
    simp only [Except.ok.injEq] at h
    subst h
    intro l hl
    fin_cases hl <;> decide

theorem translate_pop_heads (s : CW) (seg : String) (idx : Option Nat) (seq : List String)
    (h : s.translate_pop_vm_code_to_asm seg idx = .ok seq) :
    ∀ l ∈ seq, l.data.head? ≠ some '(' := by
  unfold CW.translate_pop_vm_code_to_asm at h
  split at h
  · cases h
  · obtain ⟨seq2, hseg, hok⟩ := exc_bind_ok_inv h
    simp only [Except.ok.injEq] at hok
    subst hok
    intro l hl
    rcases List.mem_append.mp hl with h1 | h1
    · exact translate_segment_heads s seg idx seq2 hseg l h1
    · fin_cases h1 <;> decide

theorem return_asm_heads : ∀ l ∈ CW.return_asm, l.data.head? ≠ some '(' := by decide

theorem callPushTail_heads : ∀ l ∈ CW.callPushTail, l.data.head? ≠ some '(' := by decide

theorem local_block_heads (i : Nat) :
    ∀ l ∈ CW.function_local_block i, l.data.head? ≠ some '(' := by
  intro l hl
  fin_cases hl <;> first
    | decide
    | (rw [head_at]; decide)

theorem BrInv_write_nodecl {s : CW} (chunk : List String) (hs : BrInv s)
    (h : ∀ l ∈ chunk, ¬ isBranchDecl l) : BrInv (s.write chunk) := by
  obtain ⟨hA, hR, hC⟩ := hs
  refine ⟨fun n hn => ⟨?_, ?_⟩, fun n hn => ?_, fun l hb => ?_⟩
  · intro hmem
    rcases List.mem_append.mp hmem with h1 | h1
    · exact (hA n hn).1 h1
    · exact h _ h1 ⟨n, Or.inl rfl⟩
  · intro hmem
    rcases List.mem_append.mp hmem with h1 | h1
    · exact (hA n hn).2 h1
    · exact h _ h1 ⟨n, Or.inr (Or.inl rfl)⟩
  · intro hmem
    rcases List.mem_append.mp hmem with h1 | h1
    · exact hR n hn h1
    · exact h _ h1 ⟨n, Or.inr (Or.inr rfl)⟩
  · show (s.output ++ chunk).count l ≤ 1
    rw [List.count_append]
    have hz : chunk.count l = 0 := by
      rw [List.count_eq_zero]
      intro hmem
      exact h l hmem hb
    rw [hz]
    simpa using hC l hb

theorem BrInv_log (s : CW) (x : String) (hs : BrInv s) :
    BrInv (if s.log_vm_commands then s.write ["//  " ++ x] else s) := by
  split
  · refine BrInv_write_nodecl _ hs (nodecl_of_heads ?_)
    intro l hl
    fin_cases hl
    rw [head_log]
    decide
  · exact hs

theorem declB_of_branch {l : String} (hb : isBranchDecl l) : declB l = true := by
  rw [declB, branchDecl_head hb]
  rfl

theorem head_append_left {x : String} (y : String) {c : Char} (h : x.data.head? = some c) :
    (x ++ y).data.head? = some c := head_append x y c h

theorem chunk_mem_branch {chunk fl : List String} (hf : chunk.filter declB = fl)
    {l : String} (hmem : l ∈ chunk) (hb : isBranchDecl l) : l ∈ fl := by
  rw [← hf]
  exact List.mem_filter.mpr ⟨hmem, declB_of_branch hb⟩

theorem chunk_count_le {chunk fl : List String} (hf : chunk.filter declB = fl)
    {l : String} (hb : isBranchDecl l) : chunk.count l ≤ fl.length := by
  rw [← List.count_filter (p := declB) (declB_of_branch hb), hf]
  exact List.count_le_length _ _

theorem chunk_count_zero {chunk : List String} (hf : chunk.filter declB = [])
    {l : String} (hb : isBranchDecl l) : chunk.count l = 0 := by
  rw [← List.count_filter (p := declB) (declB_of_branch hb), hf]
  rfl

theorem count_pair_le {a b l : String} (hne : ¬ b = l) : ([a, b] : List String).count l ≤ 1 := by
  simp [List.count_cons, string_beq_decide, decide_eq_false hne]
  split <;> simp

theorem paren_not_branch {x : String} (hx : nonBranchName x) :
    ¬ isBranchDecl ("(" ++ x ++ ")") := by
  rintro ⟨n, h | h | h⟩
  · rw [mkTrue_paren] at h
    exact (hx n).1 (paren_inj h)
  · rw [mkEnd_paren] at h
    exact (hx n).2.1 (paren_inj h)
  · rw [mkRet_paren] at h
    exact (hx n).2.2 (paren_inj h)

theorem BrInv_logline (s : CW) (line : String) (hline : ¬ isBranchDecl line) (hs : BrInv s) :
    BrInv (if s.log_vm_commands then s.write [line] else s) := by
  split
  · exact BrInv_write_nodecl _ hs (by intro l hl; fin_cases hl; exact hline)
  · exact hs

theorem BrInv_bump_ret_write (s : CW) (chunk : List String)
    (hmem : ∀ l ∈ chunk, isBranchDecl l → l = mkRet s.return_counter)
    (hcount : chunk.count (mkRet s.return_counter) ≤ 1)
    (hs : BrInv s) :
    BrInv ({ s with return_counter := s.return_counter + 1 }.write chunk) := by
  obtain ⟨hA, hR, hC⟩ := hs
  unfold BrInv CW.write
  dsimp only
  refine ⟨fun n hn => ⟨?_, ?_⟩, fun n hn => ?_, fun l hb => ?_⟩
  · intro hm
    rcases List.mem_append.mp hm with h1 | h1
    · exact (hA n hn).1 h1
    · exact mkTrue_ne_mkRet n s.return_counter (hmem _ h1 ⟨n, Or.inl rfl⟩)
  · intro hm
    rcases List.mem_append.mp hm with h1 | h1
    · exact (hA n hn).2 h1
    · exact mkEnd_ne_mkRet n s.return_counter (hmem _ h1 ⟨n, Or.inr (Or.inl rfl)⟩)
  · intro hm
    rcases List.mem_append.mp hm with h1 | h1
    · exact hR n (by omega) h1
    · have := mkRet_inj (hmem _ h1 ⟨n, Or.inr (Or.inr rfl)⟩)
      omega
  · rw [List.count_append]
    by_cases hl : l = mkRet s.return_counter
    · subst hl
      have hz : s.output.count (mkRet s.return_counter) = 0 :=
        List.count_eq_zero.mpr (hR s.return_counter (le_refl _))
      omega
    · have hz : chunk.count l = 0 := by
        rw [List.count_eq_zero]
        intro hm
        exact hl (hmem _ hm hb)
      have := hC l hb
      omega

theorem BrInv_bump_arith_write (s : CW) (chunk : List String)
    (hmem : ∀ l ∈ chunk, isBranchDecl l →
      l = mkTrue s.arith_jump_counter ∨ l = mkEnd s.arith_jump_counter)
    (hcountT : chunk.count (mkTrue s.arith_jump_counter) ≤ 1)
    (hcountE : chunk.count (mkEnd s.arith_jump_counter) ≤ 1)
    (hs : BrInv s) :
    BrInv ({ s with arith_jump_counter := s.arith_jump_counter + 1 }.write chunk) := by
  obtain ⟨hA, hR, hC⟩ := hs
  unfold BrInv CW.write
  dsimp only
  refine ⟨fun n hn => ⟨?_, ?_⟩, fun n hn => ?_, fun l hb => ?_⟩
  · intro hm
    rcases List.mem_append.mp hm with h1 | h1
    · exact (hA n (by omega)).1 h1
    · rcases hmem _ h1 ⟨n, Or.inl rfl⟩ with h2 | h2
      · have := mkTrue_inj h2
        omega
      · exact mkTrue_ne_mkEnd n s.arith_jump_counter h2
  · intro hm
    rcases List.mem_append.mp hm with h1 | h1
    · exact (hA n (by omega)).2 h1
    · rcases hmem _ h1 ⟨n, Or.inr (Or.inl rfl)⟩ with h2 | h2
      · exact mkTrue_ne_mkEnd s.arith_jump_counter n h2.symm
      · have := mkEnd_inj h2
        omega
  · intro hm
    rcases List.mem_append.mp hm with h1 | h1
    · exact hR n hn h1
    · rcases hmem _ h1 ⟨n, Or.inr (Or.inr rfl)⟩ with h2 | h2
      · exact mkTrue_ne_mkRet s.arith_jump_counter n h2.symm
      · exact mkEnd_ne_mkRet s.arith_jump_counter n h2.symm
  · rw [List.count_append]
    by_cases hT : l = mkTrue s.arith_jump_counter
    · subst hT
      have hz : s.output.count (mkTrue s.arith_jump_counter) = 0 :=
        List.count_eq_zero.mpr ((hA s.arith_jump_counter (le_refl _)).1)
      omega
    · by_cases hE : l = mkEnd s.arith_jump_counter
      · subst hE
        have hz : s.output.count (mkEnd s.arith_jump_counter) = 0 :=
          List.count_eq_zero.mpr ((hA s.arith_jump_counter (le_refl _)).2)
        omega
      · have hz : chunk.count l = 0 := by
          rw [List.count_eq_zero]
          intro hm
          rcases hmem _ hm hb with h2 | h2
          · exact hT h2
          · exact hE h2
        have := hC l hb
        omega

theorem head_atTRUE (x : String) : ("@TRUE_" ++ x).data.head? = some '@' :=
  head_append_left _ rfl

theorem head_atEND (x : String) : ("@END_" ++ x).data.head? = some '@' :=
  head_append_left _ rfl

theorem head_parenTRUE (x : String) : ("(TRUE_" ++ x ++ ")").data.head? = some '(' :=
  head_append_left _ (head_append_left _ rfl)

theorem head_parenEND (x : String) : ("(END_" ++ x ++ ")").data.head? = some '(' :=
  head_append_left _ (head_append_left _ rfl)

theorem head_paren (x : String) : ("(" ++ x ++ ")").data.head? = some '(' :=
  head_append_left _ (head_append_left _ rfl)

theorem filter_cmpSeq (jump : String) (c : Nat)
    (hj : jump = "D;JEQ" ∨ jump = "D;JGT" ∨ jump = "D;JLT") :
    (cmpSeq jump c).filter declB =
      ["(TRUE_" ++ Nat.repr c ++ ")", "(END_" ++ Nat.repr c ++ ")"] := by
  rcases hj with rfl | rfl | rfl <;>
    simp +decide [cmpSeq, declB, head_at, head_atTRUE, head_atEND, head_parenTRUE, head_parenEND]

theorem translate_arith_cases (s : CW) (cmd : String) (asm : List String) (s' : CW)
    (h : s.translate_arithmetic_vm_code_to_assembly cmd = .ok (asm, s')) :
    (s' = s ∧ ∀ l ∈ asm, l.data.head? ≠ some '(') ∨
    (s' = { s with arith_jump_counter := s.arith_jump_counter + 1 } ∧
      ∃ jump, (jump = "D;JEQ" ∨ jump = "D;JGT" ∨ jump = "D;JLT") ∧
        asm = cmpSeq jump s.arith_jump_counter) := by
  unfold CW.translate_arithmetic_vm_code_to_assembly at h
  repeat' split at h
  all_goals cases h
  all_goals first
    | (right; exact ⟨rfl, "D;JEQ", Or.inl rfl, rfl⟩)
    | (right; exact ⟨rfl, "D;JGT", Or.inr (Or.inl rfl), rfl⟩)
    | (right; exact ⟨rfl, "D;JLT", Or.inr (Or.inr rfl), rfl⟩)
    | (left; exact ⟨rfl, by decide⟩)
    | simp_all

theorem dot_mem_scoped (f l : String) : ('.' : Char) ∈ (f ++ "." ++ l).data := by
  rw [show (f ++ "." ++ l).data = (f.data ++ ['.']) ++ l.data from rfl]
  simp

theorem count_pair_le2 {a b l : String} (hne : ¬ a = l) : ([a, b] : List String).count l ≤ 1 := by
  simp [List.count_cons, string_beq_decide, decide_eq_false hne]
  split <;> simp

theorem filter_callAsm (name : String) (k rc : Nat) :
    (callAsm name k rc).filter declB = [mkRet rc] := by
  simp +decide [callAsm, CW.callPushTail, declB, head_at, head_paren, mkRet]
  rfl

theorem BrInv_write_call (s : CW) (name : String) (k : Nat) (hs : BrInv s) :
    BrInv (s.write_call name k) := by
  unfold CW.write_call
  dsimp only
  refine BrInv_bump_ret_write _ _ ?_ ?_
    (BrInv_logline s ("//  call " ++ name ++ " " ++ Nat.repr k) ?_ hs)
  · intro l hl hb
    have hm := chunk_mem_branch (filter_callAsm name k _) hl hb
    simpa using hm
  · exact chunk_count_le (filter_callAsm name k _) ⟨_, Or.inr (Or.inr rfl)⟩
  · have hh : ("//  call " ++ name ++ " " ++ Nat.repr k).data.head? = some '/' :=
      head_append_left _ (head_append_left _ (head_append "//  call " name '/' rfl))
    exact not_branch_of_head (by rw [hh]; decide)

theorem BrInv_write_function (s : CW) (name : String) (k : Nat)
    (hname : nonBranchName name) (hs : BrInv s) : BrInv (s.write_function name k) := by
  unfold CW.write_function
  dsimp only
  refine BrInv_write_nodecl _
    (BrInv_logline { s with current_function := some name }
      ("//  function " ++ name ++ " " ++ Nat.repr k) ?_ hs) ?_
  · have hh : ("//  function " ++ name ++ " " ++ Nat.repr k).data.head? = some '/' :=
      head_append_left _ (head_append_left _ (head_append "//  function " name '/' rfl))
    exact not_branch_of_head (by rw [hh]; decide)
  · intro l hl
    rcases List.mem_append.mp hl with h1 | h1
    · rw [List.mem_singleton] at h1
      subst h1
      exact paren_not_branch hname
    · obtain ⟨i, _, hli⟩ := List.mem_flatMap.mp h1
      exact not_branch_of_head (CW.function_local_block i |> fun _ => local_block_heads i l hli)

theorem BrInv_write_label (s : CW) (lab : String) (hlab : nonBranchName lab) (hs : BrInv s) :
    BrInv (s.write_label lab) := by
  unfold CW.write_label
  dsimp only
  refine BrInv_write_nodecl _ (BrInv_logline s ("//  label " ++ lab) ?_ hs) ?_
  · exact not_branch_of_head (by rw [head_append "//  label " lab '/' rfl]; decide)
  · intro x hx
    rw [List.mem_singleton] at hx
    subst hx
    split
    · exact paren_not_branch (dotted_nonBranchName _ (dot_mem_scoped _ lab))
    · exact paren_not_branch hlab

theorem BrInv_write_goto (s : CW) (lab : String) (hs : BrInv s) : BrInv (s.write_goto lab) := by
  unfold CW.write_goto
  dsimp only
  refine BrInv_write_nodecl _ (BrInv_logline s ("//  goto " ++ lab) ?_ hs) ?_
  · exact not_branch_of_head (by rw [head_append "//  goto " lab '/' rfl]; decide)
  · intro x hx
    rcases List.mem_cons.mp hx with rfl | hx
    · exact not_branch_of_head (by rw [head_at]; decide)
    · rw [List.mem_singleton] at hx
      subst hx
      exact not_branch_of_head (by decide)

theorem BrInv_write_if (s : CW) (lab : String) (hs : BrInv s) : BrInv (s.write_if lab) := by
  unfold CW.write_if
  dsimp only
  refine BrInv_write_nodecl _ (BrInv_logline s ("//  if-goto " ++ lab) ?_ hs) ?_
  · exact not_branch_of_head (by rw [head_append "//  if-goto " lab '/' rfl]; decide)
  · intro x hx
    rcases List.mem_cons.mp hx with rfl | hx
    · exact not_branch_of_head (by decide)
    · rcases List.mem_cons.mp hx with rfl | hx
      · exact not_branch_of_head (by decide)
      · rcases List.mem_cons.mp hx with rfl | hx
        · exact not_branch_of_head (by decide)
        · rcases List.mem_cons.mp hx with rfl | hx
          · exact not_branch_of_head (by rw [head_at]; decide)
          · rw [List.mem_singleton] at hx
            subst hx
            exact not_branch_of_head (by decide)

theorem BrInv_write_return (s : CW) (hs : BrInv s) : BrInv s.write_return := by
  unfold CW.write_return
  exact BrInv_write_nodecl _ (BrInv_logline s "//  return" (not_branch_of_head (by decide)) hs)
    (nodecl_of_heads return_asm_heads)

theorem BrInv_write_arithmetic (s : CW) (op : String) (s' : CW)
    (h : s.write_arithmetic op = .ok s') (hs : BrInv s) : BrInv s' := by
  unfold CW.write_arithmetic at h
  dsimp only at h
  obtain ⟨⟨asm2, s2⟩, htr, hf⟩ := exc_bind_ok_inv h
  simp only [Except.ok.injEq] at hf
  subst hf
  rcases translate_arith_cases _ op asm2 s2 htr with ⟨h1, hheads⟩ | ⟨h1, jump, hj, h2⟩
  · subst h1
    exact BrInv_write_nodecl _ (BrInv_log s op hs) (nodecl_of_heads hheads)
  · subst h1
    subst h2
    refine BrInv_bump_arith_write _ _ ?_ ?_ ?_ (BrInv_log s op hs)
    · intro l hl hb
      have hm := chunk_mem_branch (filter_cmpSeq jump _ hj) hl hb
      simp only [List.mem_cons, List.not_mem_nil, or_false] at hm
      exact hm
    · rw [← List.count_filter (p := declB)
          (declB_of_branch ⟨_, Or.inl rfl⟩), filter_cmpSeq jump _ hj]
      exact count_pair_le (fun hcontra => mkTrue_ne_mkEnd _ _ hcontra.symm)
    · rw [← List.count_filter (p := declB)
          (declB_of_branch ⟨_, Or.inr (Or.inl rfl)⟩), filter_cmpSeq jump _ hj]
      exact count_pair_le2 (mkTrue_ne_mkEnd _ _)

theorem BrInv_write_push_pop (s : CW) (ct seg : String) (i : Nat) (s' : CW)
    (h : s.write_push_pop ct seg i = .ok s') (hs : BrInv s) : BrInv s' := by
  have hline : ∀ cmdw : String,
      ¬ isBranchDecl ("//  " ++ cmdw ++ " " ++ seg ++ " " ++ Nat.repr i) := by
    intro cmdw
    have hh : ("//  " ++ cmdw ++ " " ++ seg ++ " " ++ Nat.repr i).data.head? = some '/' :=
      head_append_left _ (head_append_left _ (head_append_left _
        (head_append_left _ (head_log _))))
    exact not_branch_of_head (by rw [hh]; decide)
  unfold CW.write_push_pop at h
  dsimp only at h
  split at h
  · obtain ⟨asm, hasm, hok⟩ := exc_bind_ok_inv h
    simp only [Except.ok.injEq] at hok
    subst hok
    exact BrInv_write_nodecl _ (BrInv_logline s _ (hline "push") hs)
      (nodecl_of_heads (translate_push_heads _ seg (some i) asm hasm))
  · split at h
    · obtain ⟨asm, hasm, hok⟩ := exc_bind_ok_inv h
      simp only [Except.ok.injEq] at hok
      subst hok
      exact BrInv_write_nodecl _ (BrInv_logline s _ (hline "pop") hs)
        (nodecl_of_heads (translate_pop_heads _ seg (some i) asm hasm))
    · rw [exc_bind_error] at h
      cases h

theorem BrInv_translate_cmd (s : CW) (c : VMCmd) (s' : CW) (hwf : WFcmd c)
    (h : translate_cmd s c = .ok s') (hs : BrInv s) : BrInv s' := by
  cases c with
  | arith op => exact BrInv_write_arithmetic s op s' h hs
  | push seg i => exact BrInv_write_push_pop s "C_PUSH" seg i s' h hs
  | pop seg i => exact BrInv_write_push_pop s "C_POP" seg i s' h hs
  | label l => cases h; exact BrInv_write_label s l hwf hs
  | goto l => cases h; exact BrInv_write_goto s l hs
  | ifgoto l => cases h; exact BrInv_write_if s l hs
  | func n k => cases h; exact BrInv_write_function s n k hwf hs
  | call n k => cases h; exact BrInv_write_call s n k hs
  | ret => cases h; exact BrInv_write_return s hs

theorem BrInv_set_filename (s : CW) (fp : String) (hs : BrInv s) :
    BrInv (s.set_filename fp) := hs

theorem BrInv_cmds_ok :
    ∀ (cs : List VMCmd) (s s' : CW), (∀ c ∈ cs, WFcmd c) →
      translate_cmds_tracking s cs = .ok s' → BrInv s → BrInv s' := by
  intro cs
  induction cs with
  | nil =>
    intro s s' _ h hs
    simp only [translate_cmds_tracking, Except.ok.injEq] at h
    subst h
    exact hs
  | cons c cs ih =>
    intro s s' hwf h hs
    simp only [translate_cmds_tracking] at h
    cases htc : translate_cmd s c with
    | ok s1 =>
      rw [htc] at h
      exact ih s1 s' (fun d hd => hwf d (List.mem_cons_of_mem _ hd)) h
        (BrInv_translate_cmd s c s1 (hwf c (List.mem_cons_self _ _)) htc hs)
    | error e =>
      rw [htc] at h
      cases h

theorem BrInv_cmds_err :
    ∀ (cs : List VMCmd) (s : CW) (e : VMError) (st : CW), (∀ c ∈ cs, WFcmd c) →
      translate_cmds_tracking s cs = .error (e, st) → BrInv s → BrInv st := by
  intro cs
  induction cs with
  | nil =>
    intro s e st _ h _
    simp only [translate_cmds_tracking] at h
    cases h
  | cons c cs ih =>
    intro s e st hwf h hs
    simp only [translate_cmds_tracking] at h
    cases htc : translate_cmd s c with
    | ok s1 =>
      rw [htc] at h
      exact ih s1 e st (fun d hd => hwf d (List.mem_cons_of_mem _ hd)) h
        (BrInv_translate_cmd s c s1 (hwf c (List.mem_cons_self _ _)) htc hs)
    | error e1 =>
      rw [htc] at h
      simp only [Except.error.injEq, Prod.mk.injEq] at h
      obtain ⟨-, h2⟩ := h
      subst h2
      exact hs

theorem BrInv_units_ok :
    ∀ (us : List (String × List VMCmd)) (s s' : CW), WFunits us →
      translate_units_tracking s us = .ok s' → BrInv s → BrInv s' := by
  intro us
  induction us with
  | nil =>
    intro s s' _ h hs
    simp only [translate_units_tracking, Except.ok.injEq] at h
    subst h
    exact hs
  | cons u rest ih =>
    intro s s' hwf h hs
    obtain ⟨fp, cmds⟩ := u
    simp only [translate_units_tracking] at h
    cases htc : translate_cmds_tracking (s.set_filename fp) cmds with
    | ok s1 =>
      rw [htc] at h
      exact ih s1 s' (fun v hv => hwf v (List.mem_cons_of_mem _ hv)) h
        (BrInv_cmds_ok cmds _ s1 (hwf (fp, cmds) (List.mem_cons_self _ _)) htc
          (BrInv_set_filename s fp hs))
    | error e1 =>
      rw [htc] at h
      cases h

theorem BrInv_units_err :
    ∀ (us : List (String × List VMCmd)) (s : CW) (e : VMError) (st : CW), WFunits us →
      translate_units_tracking s us = .error (e, st) → BrInv s → BrInv st := by
  intro us
  induction us with
  | nil =>
    intro s e st _ h _
    simp only [translate_units_tracking] at h
    cases h
  | cons u rest ih =>
    intro s e st hwf h hs
    obtain ⟨fp, cmds⟩ := u
    simp only [translate_units_tracking] at h
    cases htc : translate_cmds_tracking (s.set_filename fp) cmds with
    | ok s1 =>
      rw [htc] at h
      exact ih s1 e st (fun v hv => hwf v (List.mem_cons_of_mem _ hv)) h
        (BrInv_cmds_ok cmds _ s1 (hwf (fp, cmds) (List.mem_cons_self _ _)) htc
          (BrInv_set_filename s fp hs))
    | error e1 =>
      rw [htc] at h
      simp only [Except.error.injEq] at h
      subst h
      exact BrInv_cmds_err cmds _ e st (hwf (fp, cmds) (List.mem_cons_self _ _))
        htc (BrInv_set_filename s fp hs)

theorem BrInv_base (lg : Bool) :
    BrInv { current_filename := none, current_function := none, arith_jump_counter := 0,
            return_counter := 0, log_vm_commands := lg, output := [], closed := false } := by
  refine ⟨fun n _ => ⟨?_, ?_⟩, fun n _ => ?_, fun l _ => ?_⟩ <;> simp

theorem BrInv_init (is_dir lg : Bool) : BrInv (CW.init is_dir lg) := by
  unfold CW.init CW.write_init
  dsimp only
  split
  · exact BrInv_base lg
  · refine BrInv_write_call _ "Sys.init" 0
      (BrInv_write_nodecl _ (BrInv_logline _ "//  Boostrap code"
        (not_branch_of_head (by decide)) (BrInv_base lg)) ?_)
    intro x hx
    fin_cases hx <;> exact not_branch_of_head (by decide)

/-- C5: segment addressing boundary behaviour.  Pushes through a
base-pointer segment resolve correctly for index 0 (direct dereference)
and nonzero index (offset then dereference): with the stack pointer at
258 and the local base at 300, `push local 0` appends the value at
address 300 and `push local 5` the value at address 305, both advancing
the stack pointer.  `pop constant i` fails with the `InvalidSegment`
error and `push`/`pop` on `pointer` with any index other than 0 and 1
fail with the `InvalidOperand` error. -/
theorem c5_theorem :
    (∀ (s : CW) (M : Nat → Int) (a0 d0 : Int), M 0 = 258 → M 1 = 300 →
      ∃ seq0 seq5 : List String,
        s.translate_push_vm_code_to_asm "local" (some 0) = .ok seq0 ∧
        s.translate_push_vm_code_to_asm "local" (some 5) = .ok seq5 ∧
        ((run (assemble seq0) 7 { a := a0, d := d0, mem := M, pc := 0 }).mem 258 = M 300 ∧
          (run (assemble seq0) 7 { a := a0, d := d0, mem := M, pc := 0 }).mem 0 = 259) ∧
        ((run (assemble seq5) 9 { a := a0, d := d0, mem := M, pc := 0 }).mem 258 = M 305 ∧
          (run (assemble seq5) 9 { a := a0, d := d0, mem := M, pc := 0 }).mem 0 = 259)) ∧
    (∀ (s : CW) (i : Nat),
      s.translate_pop_vm_code_to_asm "constant" (some i) =
        .error (.invalidSegment "Can't call 'pop()' operation on a 'constant' segment")) ∧
    (∀ (s : CW) (i : Nat), i ≠ 0 → i ≠ 1 →
      s.translate_push_vm_code_to_asm "pointer" (some i) =
        .error (.invalidOperand
          ("The 'pointer' segment cannot take index '" ++ Nat.repr i ++ "'. Only accepts 0 or 1.")) ∧
      s.translate_pop_vm_code_to_asm "pointer" (some i) =
        .error (.invalidOperand
          ("The 'pointer' segment cannot take index '" ++ Nat.repr i ++ "'. Only accepts 0 or 1."))) := by
  refine ⟨?_, ?_, ?_⟩
  · intro s M a0 d0 hsp hlcl
    refine ⟨["@LCL", "A=M", "D=M", "@SP", "AM=M+1", "A=A-1", "M=D"],
      ["@LCL", "D=M", "@5", "A=D+A", "D=M", "@SP", "AM=M+1", "A=A-1", "M=D"], ?_, ?_, ?_, ?_⟩ <;>
      simp +decide [CW.translate_push_vm_code_to_asm, CW.translate_segment_vm_code,
        get_ram_code, SEGMENTS_MAPPER, pyShow, exc_bind_ok, exc_bind_error, hsp, hlcl,
        assemble, collectLabels, assembleCore, isCommentLine, isLabelLine,
        resolveA, parseC, parseCParts, predefSym, parseNat?_nondigit, parseNat?,
        splitOnChar, splitOnCharAux, run, step, evalComp, jumpTaken, setMem]
  · intro s i
    rfl
  · intro s i hi0 hi1
    constructor <;>
      simp +decide [CW.translate_push_vm_code_to_asm, CW.translate_pop_vm_code_to_asm,
        CW.translate_segment_vm_code, pyShow, exc_bind_ok, exc_bind_error, hi0, hi1]

/-- C5 witness: the theorem applied at the sample writer, a concrete
memory, and the boundary indices 0, 5 and 2 of the spec. -/
theorem c5_witness :
    (∃ seq0 seq5 : List String,
        cw0.translate_push_vm_code_to_asm "local" (some 0) = .ok seq0 ∧
        cw0.translate_push_vm_code_to_asm "local" (some 5) = .ok seq5 ∧
        ((run (assemble seq0) 7
            { a := 0, d := 0, mem := fun a => if a = 0 then 258 else if a = 1 then 300 else 0,
              pc := 0 }).mem 258 =
            (fun a => if a = 0 then 258 else if a = 1 then (300 : Int) else 0) 300 ∧
          (run (assemble seq0) 7
            { a := 0, d := 0, mem := fun a => if a = 0 then 258 else if a = 1 then 300 else 0,
              pc := 0 }).mem 0 = 259) ∧
        ((run (assemble seq5) 9
            { a := 0, d := 0, mem := fun a => if a = 0 then 258 else if a = 1 then 300 else 0,
              pc := 0 }).mem 258 =
            (fun a => if a = 0 then 258 else if a = 1 then (300 : Int) else 0) 305 ∧
          (run (assemble seq5) 9
            { a := 0, d := 0, mem := fun a => if a = 0 then 258 else if a = 1 then 300 else 0,
              pc := 0 }).mem 0 = 259)) ∧
    cw0.translate_pop_vm_code_to_asm "constant" (some 0) =
      .error (.invalidSegment "Can't call 'pop()' operation on a 'constant' segment") ∧
    (cw0.translate_push_vm_code_to_asm "pointer" (some 2) =
      .error (.invalidOperand
        ("The 'pointer' segment cannot take index '" ++ Nat.repr 2 ++ "'. Only accepts 0 or 1.")) ∧
    cw0.translate_pop_vm_code_to_asm "pointer" (some 2) =
      .error (.invalidOperand
        ("The 'pointer' segment cannot take index '" ++ Nat.repr 2 ++ "'. Only accepts 0 or 1."))) :=
  ⟨c5_theorem.1 cw0 (fun a => if a = 0 then 258 else if a = 1 then 300 else 0) 0 0
      (by decide) (by decide),
    c5_theorem.2.1 cw0 0,
    c5_theorem.2.2 cw0 2 (by decide) (by decide)⟩

/-- C8 counterexample: the index-0 address path for `local` emits 2
instructions and the nonzero path 4, so the index-0 path is two — not
one — instructions shorter. -/
theorem c8_counterexample :
    (cw0.translate_segment_vm_code "local" (some 0)).map List.length = .ok 2 ∧
    (cw0.translate_segment_vm_code "local" (some 5)).map List.length = .ok 4 ∧
    2 + 1 ≠ 4 :=
  ⟨rfl, rfl, by decide⟩

/-- C8 (amended): for every base-pointer segment the index-0
address-computation sequence dereferences the base pointer directly and
is exactly TWO instructions shorter than the nonzero-index sequence,
and both paths leave the A register holding the resolved address
`base + index`. -/
theorem c8_theorem :
    ∀ segment : String,
      segment = "local" ∨ segment = "argument" ∨ segment = "this" ∨ segment = "that" →
      ∀ (s : CW) (i : Nat), i ≠ 0 →
      ∀ (M : Nat → Int) (a0 d0 : Int),
        ∃ seq0 seqi : List String,
          s.translate_segment_vm_code segment (some 0) = .ok seq0 ∧
          s.translate_segment_vm_code segment (some i) = .ok seqi ∧
          seqi.length = seq0.length + 2 ∧
          (run (assemble seq0) 2 { a := a0, d := d0, mem := M, pc := 0 }).a
            = M (segReg segment) ∧
          (run (assemble seqi) 4 { a := a0, d := d0, mem := M, pc := 0 }).a
            = M (segReg segment) + (i : Int) := by
  intro segment hseg s i hi M a0 d0
  refine ⟨["@" ++ get_ram_code segment, "A=M"],
    ["@" ++ get_ram_code segment, "D=M", "@" ++ Nat.repr i, "A=D+A"], ?_, ?_, ?_, ?_, ?_⟩ <;>
    rcases hseg with h | h | h | h <;> subst h <;>
    simp +decide [CW.translate_segment_vm_code, get_ram_code, SEGMENTS_MAPPER, pyShow, hi,
      assemble, collectLabels, assembleCore, isCommentLine, isLabelLine,
      resolveA, parseC, parseCParts, predefSym, parseNat?_repr, parseNat?_nondigit,
      splitOnChar, splitOnCharAux, segReg, run, step, evalComp, jumpTaken]

/-- C8 witness: the amended theorem at segment `local`, index 5, and a
constant memory. -/
theorem c8_witness :
    ∃ seq0 seqi : List String,
      cw0.translate_segment_vm_code "local" (some 0) = .ok seq0 ∧
      cw0.translate_segment_vm_code "local" (some 5) = .ok seqi ∧
      seqi.length = seq0.length + 2 ∧
      (run (assemble seq0) 2 { a := 0, d := 0, mem := fun _ => 7, pc := 0 }).a
        = (fun _ => (7 : Int)) (segReg "local") ∧
      (run (assemble seqi) 4 { a := 0, d := 0, mem := fun _ => 7, pc := 0 }).a
        = (fun _ => (7 : Int)) (segReg "local") + ((5 : Nat) : Int) :=
  c8_theorem "local" (Or.inl rfl) cw0 5 (by decide) (fun _ => 7) 0 0

/-- C9: label, goto and if-goto instructions scope the emitted name as
`<function>.<L>` when a current-function context is set and use the
bare name at top level; and the emitted if-goto sequence pops one value
and jumps to the target exactly when that value is non-zero. -/
theorem c9_theorem :
    (∀ (s : CW) (L f : String), s.current_function = some f →
      (s.write_label L).output =
        s.output ++ (if s.log_vm_commands then ["//  label " ++ L] else []) ++
          ["(" ++ f ++ "." ++ L ++ ")"] ∧
      (s.write_goto L).output =
        s.output ++ (if s.log_vm_commands then ["//  goto " ++ L] else []) ++
          ["@" ++ f ++ "." ++ L, "0;JMP"] ∧
      (s.write_if L).output =
        s.output ++ (if s.log_vm_commands then ["//  if-goto " ++ L] else []) ++
          ["@SP", "AM=M-1", "D=M", "@" ++ f ++ "." ++ L, "D;JNE"]) ∧
    (∀ (s : CW) (L : String), s.current_function = none →
      (s.write_label L).output =
        s.output ++ (if s.log_vm_commands then ["//  label " ++ L] else []) ++
          ["(" ++ L ++ ")"] ∧
      (s.write_goto L).output =
        s.output ++ (if s.log_vm_commands then ["//  goto " ++ L] else []) ++
          ["@" ++ L, "0;JMP"] ∧
      (s.write_if L).output =
        s.output ++ (if s.log_vm_commands then ["//  if-goto " ++ L] else []) ++
          ["@SP", "AM=M-1", "D=M", "@" ++ L, "D;JNE"]) ∧
    (∀ (M : Nat → Int) (a0 d0 v : Int), M 0 = 258 → M 257 = v →
      (cwNoLog.write_if "L1").output = ["@SP", "AM=M-1", "D=M", "@L1", "D;JNE"] ∧
      (run (assemble ((cwNoLog.write_if "L1").output ++ ["@100", "(L1)"])) 5
          { a := a0, d := d0, mem := M, pc := 0 }).mem 0 = 257 ∧
      (run (assemble ((cwNoLog.write_if "L1").output ++ ["@100", "(L1)"])) 5
          { a := a0, d := d0, mem := M, pc := 0 }).pc = (if v = 0 then 5 else 6)) := by
  refine ⟨?_, ?_, ?_⟩
  · intro s L f h
    refine ⟨?_, ?_, ?_⟩ <;>
      by_cases hl : s.log_vm_commands <;>
        simp [CW.write_label, CW.write_goto, CW.write_if, CW.write, h, hl, str_append_assoc]
  · intro s L h
    refine ⟨?_, ?_, ?_⟩ <;>
      by_cases hl : s.log_vm_commands <;>
        simp [CW.write_label, CW.write_goto, CW.write_if, CW.write, h, hl, str_append_assoc]
  · intro M a0 d0 v hsp htop
    refine ⟨by decide, ?_, ?_⟩ <;>
      by_cases hv : v = 0 <;>
        simp +decide [CW.write_if, CW.write, cwNoLog, cw0,
          assemble, collectLabels, assembleCore, isCommentLine, isLabelLine, labelNameOf,
          resolveA, parseC, parseCParts, predefSym, parseNat?,
          splitOnChar, splitOnCharAux, run, step, evalComp, jumpTaken, setMem,
          hsp, htop, hv]

/-- C9 witness: scoped emission inside function `Fn`, bare emission at
top level, and the if-goto branch taken for the non-zero value 3. -/
theorem c9_witness :
    ((cwFn.write_label "LOOP").output = ["//  label LOOP", "(Fn.LOOP)"] ∧
      (cwFn.write_goto "LOOP").output = ["//  goto LOOP", "@Fn.LOOP", "0;JMP"] ∧
      (cwFn.write_if "LOOP").output =
        ["//  if-goto LOOP", "@SP", "AM=M-1", "D=M", "@Fn.LOOP", "D;JNE"]) ∧
    ((cw0.write_label "LOOP").output = ["//  label LOOP", "(LOOP)"] ∧
      (cw0.write_goto "LOOP").output = ["//  goto LOOP", "@LOOP", "0;JMP"] ∧
      (cw0.write_if "LOOP").output =
        ["//  if-goto LOOP", "@SP", "AM=M-1", "D=M", "@LOOP", "D;JNE"]) ∧
    ((cwNoLog.write_if "L1").output = ["@SP", "AM=M-1", "D=M", "@L1", "D;JNE"] ∧
      (run (assemble ((cwNoLog.write_if "L1").output ++ ["@100", "(L1)"])) 5
          { a := 0, d := 0, mem := fun a => if a = 0 then 258 else 3, pc := 0 }).mem 0 = 257 ∧
      (run (assemble ((cwNoLog.write_if "L1").output ++ ["@100", "(L1)"])) 5
          { a := 0, d := 0, mem := fun a => if a = 0 then 258 else 3, pc := 0 }).pc = 6) := by
  refine ⟨?_, ?_, ?_⟩
  · simpa +decide [cwFn, cw0] using c9_theorem.1 cwFn "LOOP" "Fn" rfl
  · simpa +decide [cw0] using c9_theorem.2.1 cw0 "LOOP" rfl
  · simpa +decide using
      c9_theorem.2.2 (fun a => if a = 0 then 258 else 3) 0 0 3 (by decide) (by decide)

/-- C10: `set_filename` always resets the current-function context to
`None`, so a label, goto or if-goto translated after a new input unit
begins (and before any `function` instruction) emits the bare name,
whatever function the previous unit ended in. -/
theorem c10_theorem :
    ∀ (s : CW) (fp : String),
      (s.set_filename fp).current_function = none ∧
      ∀ L : String,
        ((s.set_filename fp).write_label L).output =
          (s.set_filename fp).output ++
            (if s.log_vm_commands then ["//  label " ++ L] else []) ++
            ["(" ++ L ++ ")"] ∧
        ((s.set_filename fp).write_goto L).output =
          (s.set_filename fp).output ++
            (if s.log_vm_commands then ["//  goto " ++ L] else []) ++
            ["@" ++ L, "0;JMP"] ∧
        ((s.set_filename fp).write_if L).output =
          (s.set_filename fp).output ++
            (if s.log_vm_commands then ["//  if-goto " ++ L] else []) ++
            ["@SP", "AM=M-1", "D=M", "@" ++ L, "D;JNE"] := by
  intro s fp
  refine ⟨rfl, ?_⟩
  intro L
  refine ⟨?_, ?_, ?_⟩ <;>
    by_cases hl : s.log_vm_commands <;>
      simp [CW.set_filename, CW.write_label, CW.write_goto, CW.write_if, CW.write, hl,
        str_append_assoc]

/-- C1: every translated `return` emits the fixed block `return_asm`,
and executing that block on a frame with stack pointer 305, local base
300 and argument base 295: captures the local base as the frame base,
reads the return address at frame − 5 (address 295), pops the
top-of-stack value (address 304) into the caller's argument slot 0
(address 295), sets the stack pointer to ARG + 1 = 296, restores
that/this/argument/local from frame offsets −1/−2/−3/−4 (addresses
299/298/297/296, their original contents — so argument and local were
still unclobbered when their old values were needed), and finally
jumps to the captured return address. -/
theorem c1_theorem :
    (∀ s : CW, (s.write_return).output =
      s.output ++ (if s.log_vm_commands then ["//  return"] else []) ++ CW.return_asm) ∧
    (∀ (M : Nat → Int) (a0 d0 : Int),
      M 0 = 305 → M 1 = 300 → M 2 = 295 →
      (run (assemble CW.return_asm) 49 { a := a0, d := d0, mem := M, pc := 0 }).mem 0 = 296 ∧
      (run (assemble CW.return_asm) 49 { a := a0, d := d0, mem := M, pc := 0 }).mem 295 = M 304 ∧
      (run (assemble CW.return_asm) 49 { a := a0, d := d0, mem := M, pc := 0 }).mem 4 = M 299 ∧
      (run (assemble CW.return_asm) 49 { a := a0, d := d0, mem := M, pc := 0 }).mem 3 = M 298 ∧
      (run (assemble CW.return_asm) 49 { a := a0, d := d0, mem := M, pc := 0 }).mem 2 = M 297 ∧
      (run (assemble CW.return_asm) 49 { a := a0, d := d0, mem := M, pc := 0 }).mem 1 = M 296 ∧
      (run (assemble CW.return_asm) 49 { a := a0, d := d0, mem := M, pc := 0 }).pc =
        (M 295).toNat) := by
  constructor
  · intro s
    by_cases hl : s.log_vm_commands <;> simp [CW.write_return, CW.write, hl]
  · intro M a0 d0 hsp hlcl harg
    rw [assemble_return]
    exact run_return M a0 d0 hsp hlcl harg

/-- C1 witness: the return block executed on the concrete frame
`memRet` (every untouched cell `a` holds `1000 + a`). -/
theorem c1_witness :
    (run (assemble CW.return_asm) 49 { a := 0, d := 0, mem := memRet, pc := 0 }).mem 0 = 296 ∧
    (run (assemble CW.return_asm) 49 { a := 0, d := 0, mem := memRet, pc := 0 }).mem 295 =
      memRet 304 ∧
    (run (assemble CW.return_asm) 49 { a := 0, d := 0, mem := memRet, pc := 0 }).mem 4 =
      memRet 299 ∧
    (run (assemble CW.return_asm) 49 { a := 0, d := 0, mem := memRet, pc := 0 }).mem 3 =
      memRet 298 ∧
    (run (assemble CW.return_asm) 49 { a := 0, d := 0, mem := memRet, pc := 0 }).mem 2 =
      memRet 297 ∧
    (run (assemble CW.return_asm) 49 { a := 0, d := 0, mem := memRet, pc := 0 }).mem 1 =
      memRet 296 ∧
    (run (assemble CW.return_asm) 49 { a := 0, d := 0, mem := memRet, pc := 0 }).pc =
      (memRet 295).toNat :=
  c1_theorem.2 memRet 0 0 (by decide) (by decide) (by decide)

set_option maxRecDepth 10000 in
/-- C6: each comparison (`eq`/`gt`/`lt`) translates to the pop-two /
compute-left-minus-right / branch-to-fresh-TRUE-label /
fall-through-false / converge-at-fresh-END-label block with the current
counter value, bumping the counter; executing the assembled block pops
the two operands (second-popped is the left operand) and pushes
all-bits-set (-1) when the comparison holds and 0 otherwise; and the
Scenario-B program `push constant 5`, `push constant 5`, `eq` leaves a
one-deep stack holding true. -/
theorem c6_theorem :
    (∀ (s : CW) (cmd : String),
      cmd = "eq" ∨ cmd = "gt" ∨ cmd = "lt" →
      s.translate_arithmetic_vm_code_to_assembly cmd =
        .ok (cmpSeq (if cmd = "eq" then "D;JEQ" else if cmd = "gt" then "D;JGT" else "D;JLT")
              s.arith_jump_counter,
            { s with arith_jump_counter := s.arith_jump_counter + 1 })) ∧
    (∀ (c : Nat) (M : Nat → Int) (x y a0 d0 : Int),
      M 0 = 258 → M 256 = x → M 257 = y →
      ((run (assemble (cmpSeq "D;JEQ" c)) 17 { a := a0, d := d0, mem := M, pc := 0 }).mem 0 = 257 ∧
        (run (assemble (cmpSeq "D;JEQ" c)) 17 { a := a0, d := d0, mem := M, pc := 0 }).mem 256 =
          (if x = y then -1 else 0)) ∧
      ((run (assemble (cmpSeq "D;JGT" c)) 17 { a := a0, d := d0, mem := M, pc := 0 }).mem 0 = 257 ∧
        (run (assemble (cmpSeq "D;JGT" c)) 17 { a := a0, d := d0, mem := M, pc := 0 }).mem 256 =
          (if y < x then -1 else 0)) ∧
      ((run (assemble (cmpSeq "D;JLT" c)) 17 { a := a0, d := d0, mem := M, pc := 0 }).mem 0 = 257 ∧
        (run (assemble (cmpSeq "D;JLT" c)) 17 { a := a0, d := d0, mem := M, pc := 0 }).mem 256 =
          (if x < y then -1 else 0))) ∧
    ((run (assemble scenarioB_out) 50 { a := 0, d := 0, mem := memB, pc := 0 }).mem 0 = 257 ∧
      (run (assemble scenarioB_out) 50 { a := 0, d := 0, mem := memB, pc := 0 }).mem 256 = -1) := by
  refine ⟨?_, ?_, ?_⟩
  · intro s cmd hcmd
    rcases hcmd with h | h | h <;> subst h <;>
      simp +decide [CW.translate_arithmetic_vm_code_to_assembly, cmpSeq,
        exc_bind_ok, exc_bind_error]
  · intro c M x y a0 d0 hsp hx hy
    rw [assemble_cmpSeq_JEQ, assemble_cmpSeq_JGT, assemble_cmpSeq_JLT]
    exact ⟨run_cmpProg_JEQ M x y a0 d0 hsp hx hy, run_cmpProg_JGT M x y a0 d0 hsp hx hy,
      run_cmpProg_JLT M x y a0 d0 hsp hx hy⟩
  · decide

/-- C6 witness: the `eq` translation at the sample writer, and the
three comparison blocks executed on operands 5 and 5. -/
theorem c6_witness :
    cwNoLog.translate_arithmetic_vm_code_to_assembly "eq" =
      .ok (cmpSeq (if "eq" = "eq" then "D;JEQ" else if "eq" = "gt" then "D;JGT" else "D;JLT")
            cwNoLog.arith_jump_counter,
          { cwNoLog with arith_jump_counter := cwNoLog.arith_jump_counter + 1 }) ∧
    (((run (assemble (cmpSeq "D;JEQ" 0)) 17 { a := 0, d := 0, mem := memB5, pc := 0 }).mem 0 = 257 ∧
        (run (assemble (cmpSeq "D;JEQ" 0)) 17 { a := 0, d := 0, mem := memB5, pc := 0 }).mem 256 =
          (if (5 : Int) = 5 then -1 else 0)) ∧
      ((run (assemble (cmpSeq "D;JGT" 0)) 17 { a := 0, d := 0, mem := memB5, pc := 0 }).mem 0 = 257 ∧
        (run (assemble (cmpSeq "D;JGT" 0)) 17 { a := 0, d := 0, mem := memB5, pc := 0 }).mem 256 =
          (if (5 : Int) < 5 then -1 else 0)) ∧
      ((run (assemble (cmpSeq "D;JLT" 0)) 17 { a := 0, d := 0, mem := memB5, pc := 0 }).mem 0 = 257 ∧
        (run (assemble (cmpSeq "D;JLT" 0)) 17 { a := 0, d := 0, mem := memB5, pc := 0 }).mem 256 =
          (if (5 : Int) < 5 then -1 else 0))) :=
  ⟨c6_theorem.1 cwNoLog "eq" (Or.inl rfl),
    c6_theorem.2.1 0 memB5 5 5 0 0 (by decide) (by decide) (by decide)⟩

/-- C2: every `call name n` bumps the return counter by one (fresh
return-address label), and the emitted sequence — shown here for
`call Sys.init n` from a fresh writer, with stack pointer 305 —
performs, in this order: pushes the return-address label value (42,
the instruction index immediately after the jump, where the label is
declared), pushes the caller's local/argument/this/that register
values (addresses 306–309 in that order), sets the argument base to
`stackPointer − n − 5` (310 − n − 5 after the five pushes), sets the
local base to the current stack pointer 310, and jumps unconditionally
to the address the symbol `name` resolves to (16). -/
theorem c2_theorem :
    (∀ (s : CW) (name : String) (k : Nat),
      (s.write_call name k).return_counter = s.return_counter + 1) ∧
    (∀ n : Nat,
      collectLabels ((cwNoLog.write_call "Sys.init" n).output) 0 = [("RETURN_0", 42)] ∧
      assemble ((cwNoLog.write_call "Sys.init" n).output) = callProg n ∧
      (callProg n).length = 42) ∧
    (∀ (n : Nat) (M : Nat → Int) (a0 d0 : Int), M 0 = 305 →
      (run (assemble ((cwNoLog.write_call "Sys.init" n).output)) 42
          { a := a0, d := d0, mem := M, pc := 0 }).mem 305 = 42 ∧
      (run (assemble ((cwNoLog.write_call "Sys.init" n).output)) 42
          { a := a0, d := d0, mem := M, pc := 0 }).mem 306 = M 1 ∧
      (run (assemble ((cwNoLog.write_call "Sys.init" n).output)) 42
          { a := a0, d := d0, mem := M, pc := 0 }).mem 307 = M 2 ∧
      (run (assemble ((cwNoLog.write_call "Sys.init" n).output)) 42
          { a := a0, d := d0, mem := M, pc := 0 }).mem 308 = M 3 ∧
      (run (assemble ((cwNoLog.write_call "Sys.init" n).output)) 42
          { a := a0, d := d0, mem := M, pc := 0 }).mem 309 = M 4 ∧
      (run (assemble ((cwNoLog.write_call "Sys.init" n).output)) 42
          { a := a0, d := d0, mem := M, pc := 0 }).mem 2 = 310 - ((n : Int) + 5) ∧
      (run (assemble ((cwNoLog.write_call "Sys.init" n).output)) 42
          { a := a0, d := d0, mem := M, pc := 0 }).mem 1 = 310 ∧
      (run (assemble ((cwNoLog.write_call "Sys.init" n).output)) 42
          { a := a0, d := d0, mem := M, pc := 0 }).mem 0 = 310 ∧
      (run (assemble ((cwNoLog.write_call "Sys.init" n).output)) 42
          { a := a0, d := d0, mem := M, pc := 0 }).pc = 16) := by
  refine ⟨?_, ?_, ?_⟩
  · intro s name k
    by_cases hl : s.log_vm_commands <;> simp [CW.write_call, CW.write, hl]
  · intro n
    refine ⟨?_, assemble_call n, by simp [callProg]⟩
    simp +decide [CW.write_call, CW.write, CW.callPushTail, get_ram_code, SEGMENTS_MAPPER,
      cwNoLog, cw0, collectLabels, isCommentLine, isLabelLine, labelNameOf]
  · intro n M a0 d0 hsp
    rw [assemble_call]
    exact run_call n M a0 d0 hsp

/-- C2 witness: the call block for `call Sys.init 2` executed on the
concrete memory `memCall`. -/
theorem c2_witness :
    (run (assemble ((cwNoLog.write_call "Sys.init" 2).output)) 42
        { a := 0, d := 0, mem := memCall, pc := 0 }).mem 305 = 42 ∧
    (run (assemble ((cwNoLog.write_call "Sys.init" 2).output)) 42
        { a := 0, d := 0, mem := memCall, pc := 0 }).mem 306 = memCall 1 ∧
    (run (assemble ((cwNoLog.write_call "Sys.init" 2).output)) 42
        { a := 0, d := 0, mem := memCall, pc := 0 }).mem 307 = memCall 2 ∧
    (run (assemble ((cwNoLog.write_call "Sys.init" 2).output)) 42
        { a := 0, d := 0, mem := memCall, pc := 0 }).mem 308 = memCall 3 ∧
    (run (assemble ((cwNoLog.write_call "Sys.init" 2).output)) 42
        { a := 0, d := 0, mem := memCall, pc := 0 }).mem 309 = memCall 4 ∧
    (run (assemble ((cwNoLog.write_call "Sys.init" 2).output)) 42
        { a := 0, d := 0, mem := memCall, pc := 0 }).mem 2 = 310 - (((2 : Nat) : Int) + 5) ∧
    (run (assemble ((cwNoLog.write_call "Sys.init" 2).output)) 42
        { a := 0, d := 0, mem := memCall, pc := 0 }).mem 1 = 310 ∧
    (run (assemble ((cwNoLog.write_call "Sys.init" 2).output)) 42
        { a := 0, d := 0, mem := memCall, pc := 0 }).mem 0 = 310 ∧
    (run (assemble ((cwNoLog.write_call "Sys.init" 2).output)) 42
        { a := 0, d := 0, mem := memCall, pc := 0 }).pc = 16 :=
  c2_theorem.2.2 2 memCall 0 0 (by decide)

/-- C4: a single-file job emits no bootstrap; a directory job's
constructor emits, exactly once, the bootstrap block — stack pointer
set to 256, then a `call Sys.init 0` produced by the ordinary call
protocol (`write_call` on the fresh state) — and this block is a prefix
of the output of any subsequent translation run, i.e. it precedes every
consumed instruction stream. -/
theorem c4_theorem :
    (∀ log : Bool, (CW.init false log).output = []) ∧
    (∀ log : Bool, (CW.init true log).output =
      (if log then ["//  Boostrap code"] else []) ++ ["@256", "D=A", "@SP", "M=D"] ++
        ((emptyCW log).write_call "Sys.init" 0).output) ∧
    (CW.init true true).output = bootstrapLines ∧
    (∀ units : List (String × List VMCmd),
      (CW.init true true).output <+:
        outputOf (translate_units_tracking (CW.init true true) units)) := by
  refine ⟨?_, ?_, by decide, ?_⟩
  · intro log
    rfl
  · intro log
    cases log <;> rfl
  · intro units
    cases hr : translate_units_tracking (CW.init true true) units with
    | ok s' =>
      have := units_tracking_ok_evol units _ s' hr
      simpa [outputOf] using this.1
    | error p =>
      obtain ⟨e, st⟩ := p
      have := units_tracking_err_evol units _ e st hr
      simpa [outputOf] using this.1

/-- C7 counterexample: on the concrete single-file job whose only
instruction is `pop constant 0`, translation aborts with an error while
the output sink is still open — `Main.translate_files` has no
`try/finally`, so `close()` is never reached on the error path. -/
theorem c7_counterexample :
    sinkClosedAtError (translate_files false [("Foo.vm", [.pop "constant" 0])]) =
      some false := by
  decide

/-- C7 (amended): the output sink is closed on the successful exit path
of a translation job; on a fatal translation error the error propagates
to the caller with the sink still open, because `translate_files` calls
`close()` only after the loop over all units completes. -/
theorem c7_theorem :
    ∀ (is_dir : Bool) (units : List (String × List VMCmd)),
      match translate_files is_dir units with
      | .ok r => r.closed = true
      | .error (_, st) => st.closed = false := by
  intro is_dir units
  unfold translate_files
  dsimp only
  cases hr : translate_units_tracking (CW.init is_dir) units with
  | ok s' =>
    simp [CW.close]
  | error p =>
    obtain ⟨e, st⟩ := p
    have hev := units_tracking_err_evol units _ e st hr
    have hinit : (CW.init is_dir).closed = false := by
      cases is_dir <;> decide
    dsimp only
    rw [hev.2.1, hinit]

/-- C3: branch labels are globally unique across a whole translation
job: no translated instruction ever decreases either label counter;
`set_filename` (run at every input-unit boundary) leaves both counters
unchanged, so they are never reset between units; every comparison
(`eq`/`gt`/`lt`) allocates its `TRUE_n`/`END_n` pair at the current
arith counter value and bumps that counter; every `call` (the bootstrap
call included, since `translate_files` starts from `CW.init`) allocates
`RETURN_n` at the current return counter value and bumps it; and in the
complete output of any job — any number of input units through one
writer, directory or single-file — whose user-chosen label and function
names do not themselves mimic the reserved `TRUE_n`/`END_n`/`RETURN_n`
shapes, every branch-label declaration line occurs at most once. -/
theorem c3_theorem :
    (∀ (s : CW) (c : VMCmd) (s' : CW), translate_cmd s c = .ok s' →
      s.arith_jump_counter ≤ s'.arith_jump_counter ∧
        s.return_counter ≤ s'.return_counter) ∧
    (∀ (s : CW) (fp : String),
      (s.set_filename fp).arith_jump_counter = s.arith_jump_counter ∧
        (s.set_filename fp).return_counter = s.return_counter) ∧
    (∀ (s : CW) (op : String), op = "eq" ∨ op = "gt" ∨ op = "lt" →
      ∃ asm s', s.translate_arithmetic_vm_code_to_assembly op = .ok (asm, s') ∧
        s'.arith_jump_counter = s.arith_jump_counter + 1 ∧
        s'.return_counter = s.return_counter ∧
        mkTrue s.arith_jump_counter ∈ asm ∧ mkEnd s.arith_jump_counter ∈ asm) ∧
    (∀ (s : CW) (name : String) (k : Nat),
      (s.write_call name k).return_counter = s.return_counter + 1 ∧
        (s.write_call name k).arith_jump_counter = s.arith_jump_counter ∧
        mkRet s.return_counter ∈ (s.write_call name k).output) ∧
    (∀ (is_dir : Bool) (units : List (String × List VMCmd)), WFunits units →
      ∀ l, isBranchDecl l → (outputOf (translate_files is_dir units)).count l ≤ 1) := by
  refine ⟨?_, ?_, ?_, ?_, ?_⟩
  · intro s c s' h
    exact ⟨(translate_cmd_evol c s s' h).2.2.2.1, (translate_cmd_evol c s s' h).2.2.2.2⟩
  · intro s fp
    exact ⟨rfl, rfl⟩
  · intro s op hop
    rcases hop with rfl | rfl | rfl
    · refine ⟨cmpSeq "D;JEQ" s.arith_jump_counter,
        { s with arith_jump_counter := s.arith_jump_counter + 1 }, ?_, rfl, rfl, ?_, ?_⟩
      · simp +decide [CW.translate_arithmetic_vm_code_to_assembly, cmpSeq,
          exc_bind_ok, exc_bind_error]
      · simp [cmpSeq, mkTrue]
      · simp [cmpSeq, mkEnd]
    · refine ⟨cmpSeq "D;JGT" s.arith_jump_counter,
        { s with arith_jump_counter := s.arith_jump_counter + 1 }, ?_, rfl, rfl, ?_, ?_⟩
      · simp +decide [CW.translate_arithmetic_vm_code_to_assembly, cmpSeq,
          exc_bind_ok, exc_bind_error]
      · simp [cmpSeq, mkTrue]
      · simp [cmpSeq, mkEnd]
    · refine ⟨cmpSeq "D;JLT" s.arith_jump_counter,
        { s with arith_jump_counter := s.arith_jump_counter + 1 }, ?_, rfl, rfl, ?_, ?_⟩
      · simp +decide [CW.translate_arithmetic_vm_code_to_assembly, cmpSeq,
          exc_bind_ok, exc_bind_error]
      · simp [cmpSeq, mkTrue]
      · simp [cmpSeq, mkEnd]
  · intro s name k
    refine ⟨?_, ?_, ?_⟩ <;> unfold CW.write_call <;> dsimp only
    · split <;> rfl
    · split <;> rfl
    · rw [mkRet_paren]
      split <;> simp [CW.write, CW.callPushTail]
  · intro is_dir units hwf l hb
    unfold translate_files
    dsimp only
    cases hr : translate_units_tracking (CW.init is_dir) units with
    | ok s' =>
      exact (BrInv_units_ok units _ s' hwf hr (BrInv_init is_dir true)).2.2 l hb
    | error p =>
      obtain ⟨e, st⟩ := p
      exact (BrInv_units_err units _ e st hwf hr (BrInv_init is_dir true)).2.2 l hb

/-- C3 witness: counter monotonicity across a concrete `return`
instruction, counter preservation across a concrete `set_filename`,
the concrete `eq` and `call g 1` allocations at the fresh writer, and
global uniqueness of `(TRUE_0)` on a concrete two-unit directory job
that repeats the same comparison and call in both units. -/
theorem c3_witness :
    (cwNoLog.arith_jump_counter ≤ cwNoLog.write_return.arith_jump_counter ∧
      cwNoLog.return_counter ≤ cwNoLog.write_return.return_counter) ∧
    ((cwNoLog.set_filename "x.vm").arith_jump_counter = cwNoLog.arith_jump_counter ∧
      (cwNoLog.set_filename "x.vm").return_counter = cwNoLog.return_counter) ∧
    (∃ asm s', cwNoLog.translate_arithmetic_vm_code_to_assembly "eq" = .ok (asm, s') ∧
      s'.arith_jump_counter = cwNoLog.arith_jump_counter + 1 ∧
      s'.return_counter = cwNoLog.return_counter ∧
      mkTrue cwNoLog.arith_jump_counter ∈ asm ∧ mkEnd cwNoLog.arith_jump_counter ∈ asm) ∧
    ((cwNoLog.write_call "g" 1).return_counter = cwNoLog.return_counter + 1 ∧
      (cwNoLog.write_call "g" 1).arith_jump_counter = cwNoLog.arith_jump_counter ∧
      mkRet cwNoLog.return_counter ∈ (cwNoLog.write_call "g" 1).output) ∧
    ((outputOf (translate_files true
        [("a.vm", [VMCmd.arith "eq", VMCmd.call "g" 1]),
         ("b.vm", [VMCmd.arith "eq", VMCmd.call "g" 1])])).count (mkTrue 0) ≤ 1) :=
  ⟨c3_theorem.1 cwNoLog .ret cwNoLog.write_return rfl,
   c3_theorem.2.1 cwNoLog "x.vm",
   c3_theorem.2.2.1 cwNoLog "eq" (Or.inl rfl),
   c3_theorem.2.2.2.1 cwNoLog "g" 1,
   c3_theorem.2.2.2.2 true _
     (by intro u hu c hc; fin_cases hu <;> fin_cases hc <;> trivial)
     (mkTrue 0) ⟨0, Or.inl rfl⟩⟩

end VMT
